/-
Verification of the MD&A sentiment evaluation engine
(scripts/evaluate.py and scripts/scoring_rubric.py).

Shallow embedding conventions:
* Python strings are modeled as `List Char`; only ASCII behaviour of
  `str.lower`, `str.strip`, `str.split` and the regexes is modeled
  (all inputs of the engine's own tests are ASCII).
* Python floats are modeled as exact rationals `ℚ`; `round(x, 4)`
  is modeled as round-half-to-even on rationals.
* `re.split` calls are modeled by explicit left-to-right scanners that
  mirror the leftmost-match semantics of the concrete patterns used.
* Fallible code returns `Except String _`.
-/
import Mathlib

namespace FinanceEval


/-! ### Character primitives -/

/-- ASCII whitespace, as recognised by Python's `str.split`/`str.strip`
(space, tab, newline, carriage return, vertical tab, form feed). -/
def isWS (c : Char) : Bool :=
  c = ' ' || c = '\t' || c = '\n' || c = '\r' || c = '\x0b' || c = '\x0c'

/-- Python `str.lower` restricted to ASCII: maps `'A'..'Z'` to `'a'..'z'`,
everything else unchanged.  Written as an explicit chain so that facts about
it are provable by case analysis without `Char`/`UInt32` internals. -/
def toLowerC : Char → Char
  | 'A' => 'a' | 'B' => 'b' | 'C' => 'c' | 'D' => 'd' | 'E' => 'e'
  | 'F' => 'f' | 'G' => 'g' | 'H' => 'h' | 'I' => 'i' | 'J' => 'j'
  | 'K' => 'k' | 'L' => 'l' | 'M' => 'm' | 'N' => 'n' | 'O' => 'o'
  | 'P' => 'p' | 'Q' => 'q' | 'R' => 'r' | 'S' => 's' | 'T' => 't'
  | 'U' => 'u' | 'V' => 'v' | 'W' => 'w' | 'X' => 'x' | 'Y' => 'y'
  | 'Z' => 'z' | c => c

/-! ### Python `str.strip` -/

/-- Python `str.strip()`: remove leading and trailing whitespace. -/
def strip (l : List Char) : List Char :=
  ((l.dropWhile isWS).reverse.dropWhile isWS).reverse

/-! ### Python `str.split()` (whitespace words) -/

/-- Prepend a character to the first word of a word list (starting a new
word if there is none). -/
def addChar (c : Char) : List (List Char) → List (List Char)
  | [] => [[c]]
  | w :: ws => (c :: w) :: ws

/-- Python `str.split()` with no separator: the maximal runs of
non-whitespace characters, in order; empties never occur. -/
def words : List Char → List (List Char)
  | [] => []
  | [c] => if isWS c then [] else [[c]]
  | c :: d :: cs =>
    if isWS c then words (d :: cs)
    else if isWS d then [c] :: words (d :: cs)
    else addChar c (words (d :: cs))

/-- Python `" ".join(ws)` after a whitespace split: the normal form of a string. -/
def joinWords (l : List Char) : List Char :=
  List.intercalate [' '] (words l)

/-- Model of `normalize_text` from scripts/evaluate.py:
`" ".join(s.lower().strip().split())`. -/
def normalize_text (l : List Char) : List Char :=
  joinWords (strip (l.map toLowerC))

/-! ### Python `in` (substring containment) -/

/-- Python's `p in s` on strings: contiguous substring containment. -/
def isSub (p : List Char) : List Char → Bool
  | [] => p.isEmpty
  | c :: t => p.isPrefixOf (c :: t) || isSub p t

/-! ### `jaccard` from scripts/evaluate.py -/

/-- Jaccard similarity of two token lists, treated as sets
(`1.0` when both sets are empty). -/
def jaccard (a b : List (List Char)) : ℚ :=
  if a.toFinset = ∅ ∧ b.toFinset = ∅ then 1
  else ((a.toFinset ∩ b.toFinset).card : ℚ) / ((a.toFinset ∪ b.toFinset).card : ℚ)

/-! ### The `re.split(r"[,;]|\band\b", s)` scanner from `clause_split` -/

/-- Python regex `\w` for ASCII: letters, digits, underscore. -/
def isWordChar (c : Char) : Bool := c.isAlphanum || c = '_'

/-- Word boundary on the left of a match position, given the character
just before it (`none` at the start of the string). -/
def boundaryL : Option Char → Bool
  | none => true
  | some p => !isWordChar p

/-- Word boundary on the right of a match, given the rest of the string. -/
def boundaryR : List Char → Bool
  | [] => true
  | c :: _ => !isWordChar c

/-- Prepend a character to the first piece of a split result. -/
def consHead (c : Char) : List (List Char) → List (List Char)
  | [] => [[c]]
  | p :: ps => (c :: p) :: ps

/-- Fuel-indexed left-to-right scanner realising
`re.split(r"[,;]|\band\b", s)`: split on a comma, a semicolon, or the
(case-sensitive) word `and` delimited by word boundaries.  `prev` is the
previously scanned character, used for the left word boundary of `\band\b`.
Each step consumes at least one character, so any fuel above the input
length is enough. -/
def splitAndF : ℕ → Option Char → List Char → List (List Char)
  | 0, _, l => [l]
  | _ + 1, _, [] => [[]]
  | fuel + 1, prev, c :: cs =>
    if c == ',' || c == ';' then [] :: splitAndF fuel (some c) cs
    else if c == 'a' && cs.take 2 == ['n', 'd'] && boundaryL prev
        && boundaryR (cs.drop 2) then
      [] :: splitAndF fuel (some 'd') (cs.drop 2)
    else consHead c (splitAndF fuel (some c) cs)

/-- The scanner with enough fuel for its input. -/
def splitAnd (prev : Option Char) (l : List Char) : List (List Char) :=
  splitAndF (l.length + 1) prev l

/-! ### `clause_split` and `sentence_match_score` from scripts/evaluate.py -/

/-- Model of `clause_split` from scripts/evaluate.py: strip the sentence, split on
commas, semicolons, or the word `and` (`re.split(r"[,;]|\band\b", s)`),
normalise each piece, drop whitespace-only pieces, and fall back to the
normalised whole (stripped) sentence when nothing remains. -/
def clause_split (sentence : List Char) : List (List Char) :=
  ((splitAnd none (strip sentence)).filter
      (fun p => !(strip p).isEmpty)).map normalize_text
  |> fun parts =>
    if parts.isEmpty then [normalize_text (strip sentence)] else parts

/-- Body of the per-clause loop of `sentence_match_score`: best Jaccard
score over the candidates, raised to `1.0` when the (nonempty) clause and a
candidate contain one another as substrings. -/
def clauseScore (cand_norms : List (List Char))
    (cand_tokens : List (List (List Char))) (clause : List Char) : ℚ :=
  let ctoks := words clause
  let base := cand_tokens.foldl
    (fun best c_toks =>
      if jaccard ctoks c_toks > best then jaccard ctoks c_toks else best) 0
  if !clause.isEmpty
      && cand_norms.any (fun c => isSub clause c || isSub c clause) then
    max base 1
  else base

/-- Model of `sentence_match_score` from scripts/evaluate.py: average over GT clauses
of the per-clause scores. -/
def sentence_match_score (gt_sentence : List Char)
    (candidate_sentences : List (List Char)) : ℚ :=
  let cand_norms := candidate_sentences.map normalize_text
  let scores := (clause_split gt_sentence).map
    (clauseScore cand_norms (cand_norms.map words))
  if scores.isEmpty then 0 else scores.sum / (scores.length : ℚ)

/-! ### scripts/scoring_rubric.py : labels and rubric -/

inductive SentimentLabel where
  | strongly_negative
  | negative
  | slightly_negative
  | neutral
  | slightly_positive
  | positive
  | strongly_positive
deriving DecidableEq, Repr, Inhabited

/-- A sentiment range of the rubric.  `keywords` and `description` are
documentation only and never used in scoring. -/
structure SentimentRange where
  label : SentimentLabel
  min_score : ℚ
  max_score : ℚ
  keywords : List String
  description : String
deriving DecidableEq, Inhabited

/-- Model of `SentimentRange.contains` from scripts/scoring_rubric.py:
`min_score <= score <= max_score`. -/
def SentimentRange.containsScore (sr : SentimentRange) (score : ℚ) : Bool :=
  decide (sr.min_score ≤ score) && decide (score ≤ sr.max_score)

/-- Model of `SentimentRange.center`: midpoint of the range. -/
def SentimentRange.center (sr : SentimentRange) : ℚ :=
  (sr.min_score + sr.max_score) / 2

/-- The seven ranges of the rubric, in their fixed order. -/
def sr_strongly_negative : SentimentRange :=
  { label := .strongly_negative, min_score := -1, max_score := -3/4,
    keywords := ["materially adverse", "significant downturn", "severe risk",
      "critical threat", "substantial loss", "significant decline"],
    description := "Explicit severe negative outlook with significant business impact." }

def sr_negative : SentimentRange :=
  { label := .negative, min_score := -3/4, max_score := -7/20,
    keywords := ["headwind", "unfavorable", "negatively impacted", "pressure",
      "challenging", "decline", "decreased", "reduced"],
    description := "Clearly negative outlook but not catastrophic." }

def sr_slightly_negative : SentimentRange :=
  { label := .slightly_negative, min_score := -7/20, max_score := -1/20,
    keywords := ["modest headwind", "minor pressure", "manageable",
      "slight decrease", "limited impact", "somewhat unfavorable"],
    description := "Minimal negative impact acknowledged." }

def sr_neutral : SentimentRange :=
  { label := .neutral, min_score := -1/20, max_score := 1/20,
    keywords := ["remained stable", "unchanged", "immaterial effect",
      "minimal impact", "flat", "consistent"],
    description := "Purely factual statement with no emotional language." }

def sr_slightly_positive : SentimentRange :=
  { label := .slightly_positive, min_score := 1/20, max_score := 7/20,
    keywords := ["modest improvement", "limited upside", "slight increase",
      "somewhat favorable", "marginally better"],
    description := "Acknowledges positive factor but minimal impact." }

def sr_positive : SentimentRange :=
  { label := .positive, min_score := 7/20, max_score := 3/4,
    keywords := ["expect to benefit", "could improve", "positive trend",
      "confident", "favorable", "growth", "increased", "improved"],
    description := "Generally positive outlook with some certainty." }

def sr_strongly_positive : SentimentRange :=
  { label := .strongly_positive, min_score := 3/4, max_score := 1,
    keywords := ["significant opportunity", "strong benefit", "favorable",
      "exceeded expectations", "substantial growth", "excellent", "outstanding"],
    description := "Explicit positive outlook with strong confidence." }

/-- The rubric `SENTIMENT_RUBRIC`: the seven ranges, in their fixed order. -/
def SENTIMENT_RUBRIC : List SentimentRange :=
  [sr_strongly_negative, sr_negative, sr_slightly_negative, sr_neutral,
    sr_slightly_positive, sr_positive, sr_strongly_positive]

/-- Python `min(..., key=|center - s|)` over a list with a running best:
first minimum wins, as in CPython. -/
def minByCenter (s : ℚ) : List SentimentRange → SentimentRange → SentimentRange
  | [], best => best
  | sr :: rest, best =>
    minByCenter s rest
      (if |sr.center - s| < |best.center - s| then sr else best)

/-- Model of `score_to_label` from scripts/scoring_rubric.py: clamp to `[-1, 1]`,
return the label of the first rubric range containing the clamped score,
falling back to the range with the nearest center. -/
def score_to_label (score : ℚ) : SentimentLabel :=
  match SENTIMENT_RUBRIC.find? (fun sr =>
      sr.containsScore (max (-1) (min 1 score))) with
  | some sr => sr.label
  | none =>
    (minByCenter (max (-1) (min 1 score)) SENTIMENT_RUBRIC.tail
      (SENTIMENT_RUBRIC.headD default)).label

/-- Model of `label_to_score_range` from scripts/scoring_rubric.py. -/
def label_to_score_range (label : SentimentLabel) : ℚ × ℚ :=
  match SENTIMENT_RUBRIC.find? (fun sr => sr.label == label) with
  | some sr => (sr.min_score, sr.max_score)
  | none => (-1, 1)

/-- Model of `DEFAULT_TOLERANCE` from scripts/scoring_rubric.py. -/
def DEFAULT_TOLERANCE : ℚ := 1/10

/-- Model of `sentiment_match_with_tolerance` from scripts/scoring_rubric.py
(`error = abs(gt_score - pred_score)` is inlined). -/
def sentiment_match_with_tolerance (gt_score pred_score tolerance : ℚ) : ℚ :=
  if |gt_score - pred_score| ≤ tolerance then 1
  else if |gt_score - pred_score| ≤ 2 * tolerance then
    1 - (1/2) * ((|gt_score - pred_score| - tolerance) / tolerance)
  else
    max 0 ((1/2) * (1 - (|gt_score - pred_score| - 2 * tolerance)
      / (2 - 2 * tolerance)))

/-- The fixed label order used by `label_match_score`. -/
def label_order : List SentimentLabel := [
  .strongly_negative, .negative, .slightly_negative, .neutral,
  .slightly_positive, .positive, .strongly_positive]

/-- Python `list.index`: position of the first occurrence (0 when absent,
unreachable here since `label_order` is exhaustive). -/
def labelIndex (label : SentimentLabel) : ℕ :=
  (label_order.indexOf label)

/-- Model of `label_match_score` from scripts/scoring_rubric.py:
`max(0, 1 - d/6)` for the ordinal distance `d` between the two labels. -/
def label_match_score (gt_label pred_label : SentimentLabel) : ℚ :=
  max 0 (1 - ((((labelIndex gt_label : ℤ) - (labelIndex pred_label : ℤ)).natAbs : ℚ) / 6) * 1)

/-! ### scripts/scoring_rubric.py : mixed-sentiment utilities -/

/-- Model of `aggregate_mixed_sentiment` from scripts/scoring_rubric.py.
`raise ValueError` is modeled as `Except.error`. -/
def aggregate_mixed_sentiment (sub_scores : List (List Char × ℚ))
    (method : String) : Except String ℚ :=
  if sub_scores.isEmpty then .ok 0
  else if method = "mean" then
    .ok ((sub_scores.map Prod.snd).sum / (sub_scores.length : ℚ))
  else if method = "weighted_by_length" then
    let total_length := (sub_scores.map (fun p => p.1.length)).sum
    if total_length = 0 then .ok 0
    else .ok ((sub_scores.map (fun p => (p.1.length : ℚ) * p.2)).sum
      / (total_length : ℚ))
  else .error ("Unknown aggregation method: " ++ method)

/-- The contrast conjunctions scanned for by
`detect_mixed_sentiment_indicators`. -/
def contrast_words : List (List Char) :=
  ["but", "however", "although", "despite", "while", "yet",
    "nevertheless"].map String.toList

/-- The (positive cue, negative cue) pairs of
`detect_mixed_sentiment_indicators`. -/
def contrast_patterns : List (List Char × List Char) :=
  [("increased", "offset"), ("growth", "decline"), ("benefited", "impacted"),
    ("improved", "decreased"), ("gain", "loss")].map
    (fun p => (p.1.toList, p.2.toList))

/-- The hedge phrases of `detect_mixed_sentiment_indicators`. -/
def hedge_words : List (List Char) :=
  ["partially", "somewhat", "to some extent", "largely offset",
    "mostly offset"].map String.toList

/-- Model of `detect_mixed_sentiment_indicators` from scripts/scoring_rubric.py:
contrast words as space-delimited whole words in the padded lowercased
text, then both cues of a contrast pair as substrings, then hedge phrases
as substrings. -/
def detect_mixed_sentiment_indicators (text : List Char) : List (List Char) :=
  let text_lower := text.map toLowerC
  let padded := ' ' :: text_lower ++ [' ']
  (contrast_words.filter fun w => isSub (' ' :: w ++ [' ']) padded)
  ++ ((contrast_patterns.filter fun pn =>
        isSub pn.1 text_lower && isSub pn.2 text_lower).map
      fun pn => pn.1 ++ "...".toList ++ pn.2)
  ++ (hedge_words.filter fun h => isSub h text_lower)

/-! ### The `re.split(r"[,;]|\s+(?:but|...)\s+", ..., IGNORECASE)` scanner -/

/-- Prepend a run of characters to the first piece of a split result. -/
def consRun (run : List Char) : List (List Char) → List (List Char)
  | [] => [run]
  | p :: ps => (run ++ p) :: ps

/-- Case-insensitive match of one of `conjs` at the start of `rest`,
followed by at least one whitespace character (the mandatory trailing
`\s+` of the pattern); returns the matched length. -/
def conjHere (conjs : List (List Char)) (rest : List Char) : Option ℕ :=
  conjs.findSome? fun w =>
    if (rest.take w.length).map toLowerC == w
        && (match rest.drop w.length with
            | [] => false
            | c :: _ => isWS c) then
      some w.length
    else none

/-- Fuel-indexed scanner realising `re.split` on the pattern
`[,;]|\s+(?:conj₁|...|conjₙ)\s+` (conjunction alternatives matched
case-insensitively, surrounded by mandatory whitespace); when `punct` is
false the `[,;]` alternative is absent.  A failed conjunction attempt
after a whitespace run cannot succeed inside the run (the run is consumed
greedily), so the whole run joins the current piece. -/
def wsConjSplitF (conjs : List (List Char)) (punct : Bool) :
    ℕ → List Char → List (List Char)
  | 0, l => [l]
  | _ + 1, [] => [[]]
  | fuel + 1, c :: cs =>
    if punct && (c == ',' || c == ';') then
      [] :: wsConjSplitF conjs punct fuel cs
    else if isWS c then
      match conjHere conjs (cs.dropWhile isWS) with
      | some n =>
        [] :: wsConjSplitF conjs punct fuel
          (((cs.dropWhile isWS).drop n).dropWhile isWS)
      | none =>
        consRun (c :: cs.takeWhile isWS)
          (wsConjSplitF conjs punct fuel (cs.dropWhile isWS))
    else consHead c (wsConjSplitF conjs punct fuel cs)

/-- The six contrast conjunctions of the `split_mixed_sentiment_sentence`
regex (note: `nevertheless` is not among them). -/
def ms_conjs : List (List Char) :=
  ["but", "however", "although", "despite", "while", "yet"].map String.toList

/-- Model of `split_mixed_sentiment_sentence` from scripts/scoring_rubric.py:
split on commas/semicolons and whitespace-delimited contrast conjunctions,
strip pieces and drop empties, further split pieces containing `" and "`
on whitespace-delimited `and`, and fall back to the whole sentence. -/
def split_mixed_sentiment_sentence (sentence : List Char) : List (List Char) :=
  let parts := ((wsConjSplitF ms_conjs true (sentence.length + 1)
    sentence).map strip).filter (fun p => !p.isEmpty)
  let final_parts := parts.flatMap fun part =>
    if isSub " and ".toList (part.map toLowerC) then
      ((wsConjSplitF ["and".toList] false (part.length + 1) part).map
        strip).filter (fun sp => !sp.isEmpty)
    else [part]
  if final_parts.isEmpty then [sentence] else final_parts

/-- Modelled from the spec words of the C7 claim only (not from the code):
the same splitter with `nevertheless` included among the split
conjunctions, as the claim asserts. -/
def split_mixed_claimed (sentence : List Char) : List (List Char) :=
  let parts := ((wsConjSplitF contrast_words true (sentence.length + 1)
    sentence).map strip).filter (fun p => !p.isEmpty)
  let final_parts := parts.flatMap fun part =>
    if isSub " and ".toList (part.map toLowerC) then
      ((wsConjSplitF ["and".toList] false (part.length + 1) part).map
        strip).filter (fun sp => !sp.isEmpty)
    else [part]
  if final_parts.isEmpty then [sentence] else final_parts

/-! ### The case-insensitive variant of the `clause_split` scanner,
modelled from the spec words of the C6 claim -/

/-- Modelled from the spec words of the C6 claim only (not from the code):
the `clause_split` scanner with the word `and` matched case-insensitively,
as the claim asserts. -/
def splitAndCIF : ℕ → Option Char → List Char → List (List Char)
  | 0, _, l => [l]
  | _ + 1, _, [] => [[]]
  | fuel + 1, prev, c :: cs =>
    if c == ',' || c == ';' then [] :: splitAndCIF fuel (some c) cs
    else if toLowerC c == 'a' && (cs.take 2).map toLowerC == ['n', 'd']
        && boundaryL prev && boundaryR (cs.drop 2) then
      [] :: splitAndCIF fuel (some 'd') (cs.drop 2)
    else consHead c (splitAndCIF fuel (some c) cs)

/-- Modelled from the spec words of the C6 claim: `clause_split` with the
case-insensitive scanner. -/
def clause_split_claimed (sentence : List Char) : List (List Char) :=
  ((splitAndCIF ((strip sentence).length + 1) none (strip sentence)).filter
      (fun p => !(strip p).isEmpty)).map normalize_text
  |> fun parts =>
    if parts.isEmpty then [normalize_text (strip sentence)] else parts

/-! ### scripts/evaluate.py : records and the evaluator -/

/-- A ground-truth record (schema of evaluation/label_schema.json);
`clauses` is the optional pre-split annotation (empty when absent). -/
structure GTRecord where
  id : String
  sentence : List Char
  sentiment_score : ℚ
  sentiment_label : String
  factor : String
  clauses : List (List Char)
deriving DecidableEq

/-- A prediction record; `sentiment_score` is optional, and
`support_sentences`/`sentences` default to empty lists when absent. -/
structure PredRecord where
  id : String
  factor : String
  sentiment_score : Option ℚ
  support_sentences : List (List Char)
  sentences : List (List Char)
deriving DecidableEq

/-- One entry of the mixed-sentiment sample
(`analyze_mixed_sentiment` output plus the item id). -/
structure MixedItem where
  id : String
  is_mixed : Bool
  indicators : List (List Char)
  gt_clauses : List (List Char)
  gt_score : ℚ
  pred_score : Option ℚ
deriving DecidableEq

/-- The per-item detail dict built by `evaluate`. -/
structure ItemDetail where
  id : String
  factor : String
  gt_score : ℚ
  gt_label : String
  gt_sentence : List Char
  pred_score : Option ℚ
  identification_score : ℚ
  sentiment_basic : ℚ
  sentiment_tolerance : ℚ
  sentiment_label : ℚ
  score_error : Option ℚ
  missing_prediction : Bool
  has_mixed_sentiment : Bool
deriving DecidableEq, Inhabited

/-- The result object of `evaluate`. -/
structure EvalResult where
  items : ℕ
  identification : ℚ
  sentiment_basic : ℚ
  sentiment_tolerance : ℚ
  sentiment_label : ℚ
  sentiment : ℚ
  composite : ℚ
  tolerance_used : ℚ
  mixed_sentiment_count : ℕ
  mixed_sentiment_analysis : Option (ℕ × List MixedItem)
  per_item : Option (List ItemDetail)
deriving DecidableEq

/-- Model of Python `round(x, 4)`: round half to even at 4 decimal places
(floats are modeled as exact rationals). -/
def round4 (q : ℚ) : ℚ :=
  ((if q * 10000 - ⌊q * 10000⌋ < 1/2 then ⌊q * 10000⌋
    else if q * 10000 - ⌊q * 10000⌋ > 1/2 then ⌊q * 10000⌋ + 1
    else if ⌊q * 10000⌋ % 2 = 0 then ⌊q * 10000⌋
    else ⌊q * 10000⌋ + 1 : ℤ) : ℚ) / 10000

/-- Model of `pred_by_id = {p.get("id"): p for p in pred_records}` followed
by `pred_by_id.get(gid)`: dict comprehension keeps the last record for a
duplicated id, so look up the last matching record. -/
def lookupPred (preds : List PredRecord) (gid : String) : Option PredRecord :=
  preds.reverse.find? (fun p => p.id == gid)

/-- Sentence truncation used in the detail dict:
`s[:100] + "..." if len(s) > 100 else s`. -/
def truncateSentence (s : List Char) : List Char :=
  if s.length > 100 then s.take 100 ++ "...".toList else s

/-- Model of `sentiment_score_match`:
`max(0.0, 1.0 - err/2.0)` for `err = abs(gt - pred)`. -/
def sentiment_score_match (gt_score pred_score : ℚ) : ℚ :=
  max 0 (1 - |gt_score - pred_score| / 2)

/-- Model of `sentiment_score_match_enhanced`: the triple of basic score,
tolerance score and label score. -/
def sentiment_score_match_enhanced (gt_score pred_score tolerance : ℚ) :
    ℚ × ℚ × ℚ :=
  (sentiment_score_match gt_score pred_score,
   sentiment_match_with_tolerance gt_score pred_score tolerance,
   label_match_score (score_to_label gt_score) (score_to_label pred_score))

/-- One iteration of the `evaluate` loop for a ground-truth record `gt`
and its (possibly missing) prediction: the detail dict and the optional
mixed-sentiment sample entry.  With no prediction, the loop `continue`s
right after recording zeros, so the mixed-sentiment check is skipped. -/
def scoreItem (gt : GTRecord) (predOpt : Option PredRecord) (tolerance : ℚ) :
    ItemDetail × Option MixedItem :=
  match predOpt with
  | none =>
    ({ id := gt.id, factor := gt.factor, gt_score := gt.sentiment_score,
       gt_label := gt.sentiment_label,
       gt_sentence := truncateSentence gt.sentence,
       pred_score := none, identification_score := 0, sentiment_basic := 0,
       sentiment_tolerance := 0, sentiment_label := 0, score_error := none,
       missing_prediction := true, has_mixed_sentiment := false }, none)
  | some pred =>
    let cand := if pred.support_sentences.isEmpty then pred.sentences
      else pred.support_sentences
    let match_score := sentence_match_score gt.sentence cand
    let indicators := detect_mixed_sentiment_indicators gt.sentence
    let mixed : Option MixedItem :=
      if indicators.isEmpty then none
      else some
        { id := gt.id, is_mixed := true, indicators := indicators,
          gt_clauses := gt.clauses, gt_score := gt.sentiment_score,
          pred_score := pred.sentiment_score }
    match pred.sentiment_score with
    | none =>
      ({ id := gt.id, factor := gt.factor, gt_score := gt.sentiment_score,
         gt_label := gt.sentiment_label,
         gt_sentence := truncateSentence gt.sentence,
         pred_score := none, identification_score := match_score,
         sentiment_basic := 0, sentiment_tolerance := 0, sentiment_label := 0,
         score_error := none, missing_prediction := false,
         has_mixed_sentiment := !indicators.isEmpty }, mixed)
    | some ps =>
      ({ id := gt.id, factor := gt.factor, gt_score := gt.sentiment_score,
         gt_label := gt.sentiment_label,
         gt_sentence := truncateSentence gt.sentence,
         pred_score := some ps, identification_score := match_score,
         sentiment_basic := (sentiment_score_match_enhanced
           gt.sentiment_score ps tolerance).1,
         sentiment_tolerance := (sentiment_score_match_enhanced
           gt.sentiment_score ps tolerance).2.1,
         sentiment_label := (sentiment_score_match_enhanced
           gt.sentiment_score ps tolerance).2.2,
         score_error := some |gt.sentiment_score - ps|,
         missing_prediction := false,
         has_mixed_sentiment := !indicators.isEmpty }, mixed)

/-- Model of `evaluate` from scripts/evaluate.py. -/
def evaluate (gt_records : List GTRecord) (pred_records : List PredRecord)
    (tolerance : ℚ) (detailed : Bool) : EvalResult :=
  let results := gt_records.map fun gt =>
    scoreItem gt (lookupPred pred_records gt.id) tolerance
  let details := results.map Prod.fst
  let mixed_items := results.filterMap Prod.snd
  let items := gt_records.length
  let identification := if items ≠ 0 then
    (details.map ItemDetail.identification_score).sum / (items : ℚ) else 0
  let sentiment_basic := if items ≠ 0 then
    (details.map ItemDetail.sentiment_basic).sum / (items : ℚ) else 0
  let sentiment_tolerance := if items ≠ 0 then
    (details.map ItemDetail.sentiment_tolerance).sum / (items : ℚ) else 0
  let sentiment_label := if items ≠ 0 then
    (details.map ItemDetail.sentiment_label).sum / (items : ℚ) else 0
  let sentiment := (1/2) * sentiment_tolerance + (3/10) * sentiment_basic
    + (1/5) * sentiment_label
  let composite := (2/5) * identification + (3/5) * sentiment
  { items := items,
    identification := round4 identification,
    sentiment_basic := round4 sentiment_basic,
    sentiment_tolerance := round4 sentiment_tolerance,
    sentiment_label := round4 sentiment_label,
    sentiment := round4 sentiment,
    composite := round4 composite,
    tolerance_used := tolerance,
    mixed_sentiment_count := mixed_items.length,
    mixed_sentiment_analysis := if mixed_items.isEmpty then none
      else some (mixed_items.length, mixed_items.take 5),
    per_item := if detailed then some details else none }

/-- The mean over all GT items (0 when there are none) of a per-item
score, as accumulated by the `evaluate` loop. -/
def evalMean (gts : List GTRecord) (preds : List PredRecord) (tol : ℚ)
    (f : ItemDetail → ℚ) : ℚ :=
  if gts.length ≠ 0 then
    (gts.map fun gt => f (scoreItem gt (lookupPred preds gt.id) tol).1).sum
      / (gts.length : ℚ)
  else 0

/-- Witness for C2 at a concrete input. -/
def gtMissingX : GTRecord :=
  { id := "g1", sentence := "Revenue grew".toList, sentiment_score := 1/2,
    sentiment_label := "positive", factor := "fx", clauses := [] }

/-! ### Claim C3 -/

/-- Input for the C3 counterexample: a ground-truth sentence full of
mixed-sentiment indicators. -/
def gtMixedX : GTRecord :=
  { id := "g2", sentence := "growth but decline".toList,
    sentiment_score := 1/2, sentiment_label := "positive", factor := "fx",
    clauses := [] }

theorem toLowerC_of_ws {c : Char} (h : isWS c = true) : toLowerC c = c := by
  simp only [isWS, Bool.or_eq_true, decide_eq_true_eq] at h
  rcases h with ((((h | h) | h) | h) | h) | h <;> subst h <;> rfl

theorem isWS_toLowerC_of_not_ws {c : Char} (h : isWS c = false) :
    isWS (toLowerC c) = false := by
  unfold toLowerC
  split <;> exact h

theorem isWS_toLowerC (c : Char) : isWS (toLowerC c) = isWS c := by
  cases h : isWS c with
  | true => rw [toLowerC_of_ws h, h]
  | false => rw [isWS_toLowerC_of_not_ws h]

/-! ### Lemmas about `words` -/

theorem words_cons_ws {c : Char} (cs : List Char) (h : isWS c = true) :
    words (c :: cs) = words cs := by
  cases cs with
  | nil => simp [words, h]
  | cons d cs' => simp [words, h]

theorem words_singleton_nonws {c : Char} (h : isWS c = false) :
    words [c] = [[c]] := by
  simp [words, h]

theorem words_cons_cons_ws {c d : Char} (cs : List Char)
    (hc : isWS c = false) (hd : isWS d = true) :
    words (c :: d :: cs) = [c] :: words (d :: cs) := by
  simp only [words, hc, hd, Bool.false_eq_true, if_false, if_true]

theorem words_cons_cons_nonws' {c d : Char} (cs : List Char)
    (hc : isWS c = false) (hd : isWS d = false) :
    words (c :: d :: cs) = addChar c (words (d :: cs)) := by
  simp only [words, hc, hd, Bool.false_eq_true, if_false]

theorem words_ne_nil_of_head_nonws {d : Char} (cs : List Char)
    (hd : isWS d = false) : words (d :: cs) ≠ [] := by
  cases cs with
  | nil => simp [words, hd]
  | cons e es =>
    cases he : isWS e
    · rw [words_cons_cons_nonws' es hd he]
      cases words (e :: es) <;> simp [addChar]
    · rw [words_cons_cons_ws es hd he]
      simp

theorem words_cons_cons_nonws {c d : Char} (cs : List Char)
    (hc : isWS c = false) (hd : isWS d = false) :
    ∃ w ws, words (d :: cs) = w :: ws ∧ words (c :: d :: cs) = (c :: w) :: ws := by
  have hne := words_ne_nil_of_head_nonws cs hd
  cases h : words (d :: cs) with
  | nil => exact absurd h hne
  | cons w ws =>
    exact ⟨w, ws, rfl, by rw [words_cons_cons_nonws' cs hc hd, h]; rfl⟩

theorem words_eq_nil_iff {l : List Char} :
    words l = [] ↔ ∀ c ∈ l, isWS c = true := by
  induction l with
  | nil => simp [words]
  | cons c cs ih =>
    cases hc : isWS c with
    | true => simp [words_cons_ws cs hc, ih, hc]
    | false =>
      have hne := words_ne_nil_of_head_nonws cs hc
      simp only [List.mem_cons]
      constructor
      · intro h; exact absurd h hne
      · intro h
        have hcw := h c (Or.inl rfl)
        rw [hc] at hcw
        exact absurd hcw (by simp)

theorem words_append_ne_nil {m v : List Char} (h : words m ≠ []) :
    words (m ++ v) ≠ [] := by
  intro hmv
  apply h
  rw [words_eq_nil_iff] at hmv ⊢
  intro c hc
  exact hmv c (List.mem_append_left _ hc)

theorem words_mem_ne_nil {l : List Char} : ∀ w ∈ words l, w ≠ [] := by
  induction l with
  | nil => simp [words]
  | cons c cs ih =>
    cases hc : isWS c with
    | true => rw [words_cons_ws cs hc]; exact ih
    | false =>
      cases cs with
      | nil => rw [words_singleton_nonws hc]; simp
      | cons d cs' =>
        cases hd : isWS d with
        | true =>
          rw [words_cons_cons_ws cs' hc hd]
          intro w hw
          rcases List.mem_cons.mp hw with h | h
          · subst h; simp
          · exact ih w h
        | false =>
          obtain ⟨w, ws, hw, hcw⟩ := words_cons_cons_nonws cs' hc hd
          rw [hcw]
          intro x hx
          rcases List.mem_cons.mp hx with h | h
          · subst h; simp
          · exact ih x (by rw [hw]; exact List.mem_cons_of_mem _ h)

/-! ### Lemmas about `joinWords` -/

theorem intercalate_sp_nil : List.intercalate [' '] ([] : List (List Char)) = [] := by
  simp [List.intercalate]

theorem intercalate_sp_single (w : List Char) :
    List.intercalate [' '] [w] = w := by
  simp [List.intercalate]

theorem intercalate_sp_cons₂ (w x : List Char) (t : List (List Char)) :
    List.intercalate [' '] (w :: x :: t) =
      w ++ ' ' :: List.intercalate [' '] (x :: t) := by
  simp [List.intercalate, List.intersperse]

theorem intercalate_sp_cons_head (c : Char) (w : List Char) (ws : List (List Char)) :
    List.intercalate [' '] ((c :: w) :: ws) =
      c :: List.intercalate [' '] (w :: ws) := by
  cases ws with
  | nil => simp [intercalate_sp_single]
  | cons x t => rw [intercalate_sp_cons₂, intercalate_sp_cons₂]; simp

theorem joinWords_nil : joinWords [] = [] := by
  simp [joinWords, words, intercalate_sp_nil]

theorem joinWords_cons_ws {c : Char} (cs : List Char) (h : isWS c = true) :
    joinWords (c :: cs) = joinWords cs := by
  simp [joinWords, words_cons_ws cs h]

theorem joinWords_singleton_nonws {c : Char} (h : isWS c = false) :
    joinWords [c] = [c] := by
  simp [joinWords, words_singleton_nonws h, intercalate_sp_single]

theorem joinWords_cons_nonws_nonws {c d : Char} (cs : List Char)
    (hc : isWS c = false) (hd : isWS d = false) :
    joinWords (c :: d :: cs) = c :: joinWords (d :: cs) := by
  obtain ⟨w, ws, hw, hcw⟩ := words_cons_cons_nonws cs hc hd
  rw [joinWords, joinWords, hw, hcw, intercalate_sp_cons_head]

theorem joinWords_cons_nonws_ws_nil {c d : Char} (cs : List Char)
    (hc : isWS c = false) (hd : isWS d = true) (h : words (d :: cs) = []) :
    joinWords (c :: d :: cs) = [c] := by
  rw [joinWords, words_cons_cons_ws cs hc hd, h, intercalate_sp_single]

theorem joinWords_cons_nonws_ws_cons {c d : Char} (cs : List Char)
    (hc : isWS c = false) (hd : isWS d = true) (h : words (d :: cs) ≠ []) :
    joinWords (c :: d :: cs) = c :: ' ' :: joinWords (d :: cs) := by
  cases hw : words (d :: cs) with
  | nil => exact absurd hw h
  | cons w ws =>
    rw [joinWords, words_cons_cons_ws cs hc hd, hw, intercalate_sp_cons₂,
      List.singleton_append, joinWords, hw]

theorem joinWords_eq_nil_iff {l : List Char} :
    joinWords l = [] ↔ words l = [] := by
  constructor
  · intro h
    cases hw : words l with
    | nil => rfl
    | cons w ws =>
      exfalso
      have hwne : w ≠ [] := words_mem_ne_nil w (by rw [hw]; exact List.mem_cons_self _ _)
      cases ws with
      | nil => rw [joinWords, hw, intercalate_sp_single] at h; exact hwne h
      | cons x t =>
        rw [joinWords, hw, intercalate_sp_cons₂] at h
        rcases List.append_eq_nil.mp h with ⟨_, h2⟩
        exact List.cons_ne_nil _ _ h2
  · intro h; rw [joinWords, h, intercalate_sp_nil]

/-- The value `joinWords p` of a prefix slice is a prefix of `joinWords` of the whole. -/
theorem joinWords_prefix_of_append (p v : List Char) : joinWords p <+: joinWords (p ++ v) := by
  induction p with
  | nil => rw [joinWords_nil]; exact List.nil_prefix
  | cons c p' ih =>
    rw [List.cons_append]
    cases hc : isWS c with
    | true =>
      rw [joinWords_cons_ws p' hc, joinWords_cons_ws (p' ++ v) hc]
      exact ih
    | false =>
      cases p' with
      | nil =>
        rw [joinWords_singleton_nonws hc, List.nil_append]
        cases v with
        | nil => rw [joinWords_singleton_nonws hc]
        | cons d v' =>
          cases hd : isWS d with
          | false =>
            rw [joinWords_cons_nonws_nonws v' hc hd]
            exact ⟨joinWords (d :: v'), rfl⟩
          | true =>
            by_cases hw : words (d :: v') = []
            · rw [joinWords_cons_nonws_ws_nil v' hc hd hw]
            · rw [joinWords_cons_nonws_ws_cons v' hc hd hw]
              exact ⟨' ' :: joinWords (d :: v'), rfl⟩
      | cons d p'' =>
        rw [List.cons_append]
        rw [List.cons_append] at ih
        cases hd : isWS d with
        | false =>
          rw [joinWords_cons_nonws_nonws p'' hc hd,
            joinWords_cons_nonws_nonws (p'' ++ v) hc hd]
          exact (List.cons_prefix_cons).mpr ⟨rfl, ih⟩
        | true =>
          by_cases hw : words (d :: p'') = []
          · rw [joinWords_cons_nonws_ws_nil p'' hc hd hw]
            by_cases hw2 : words (d :: (p'' ++ v)) = []
            · rw [joinWords_cons_nonws_ws_nil (p'' ++ v) hc hd hw2]
            · rw [joinWords_cons_nonws_ws_cons (p'' ++ v) hc hd hw2]
              exact (List.cons_prefix_cons).mpr ⟨rfl, List.nil_prefix⟩
          · have hw2 : words (d :: (p'' ++ v)) ≠ [] := by
              have := words_append_ne_nil (v := v) hw
              rwa [List.cons_append] at this
            rw [joinWords_cons_nonws_ws_cons p'' hc hd hw,
              joinWords_cons_nonws_ws_cons (p'' ++ v) hc hd hw2]
            exact (List.cons_prefix_cons).mpr ⟨rfl,
              (List.cons_prefix_cons).mpr ⟨rfl, ih⟩⟩

/-- The value `joinWords q` of a suffix slice is a suffix of `joinWords` of the whole. -/
theorem joinWords_suffix (u q : List Char) : joinWords q <:+ joinWords (u ++ q) := by
  induction u with
  | nil => exact List.suffix_refl _
  | cons c u' ih =>
    rw [List.cons_append]
    cases hc : isWS c with
    | true => rw [joinWords_cons_ws (u' ++ q) hc]; exact ih
    | false =>
      cases u' with
      | nil =>
        rw [List.nil_append]
        cases q with
        | nil =>
          rw [joinWords_singleton_nonws hc, joinWords_nil]
          exact List.nil_suffix
        | cons d q' =>
          cases hd : isWS d with
          | false =>
            rw [joinWords_cons_nonws_nonws q' hc hd]
            exact List.suffix_cons _ _
          | true =>
            by_cases hw : words (d :: q') = []
            · rw [joinWords_cons_nonws_ws_nil q' hc hd hw,
                show joinWords (d :: q') = [] from joinWords_eq_nil_iff.mpr hw]
              exact List.nil_suffix
            · rw [joinWords_cons_nonws_ws_cons q' hc hd hw]
              exact (List.suffix_cons _ _).trans (List.suffix_cons _ _)
      | cons d u'' =>
        rw [List.cons_append]
        rw [List.cons_append] at ih
        cases hd : isWS d with
        | false =>
          rw [joinWords_cons_nonws_nonws (u'' ++ q) hc hd]
          exact ih.trans (List.suffix_cons _ _)
        | true =>
          by_cases hw : words (d :: (u'' ++ q)) = []
          · rw [joinWords_cons_nonws_ws_nil (u'' ++ q) hc hd hw]
            have hq : words q = [] := by
              rw [words_eq_nil_iff] at hw ⊢
              intro x hx
              exact hw x (by simp [hx])
            rw [show joinWords q = [] from joinWords_eq_nil_iff.mpr hq]
            exact List.nil_suffix
          · rw [joinWords_cons_nonws_ws_cons (u'' ++ q) hc hd hw]
            exact ih.trans ((List.suffix_cons _ _).trans (List.suffix_cons _ _))

/-- Whitespace normalisation `joinWords` maps contiguous substrings to
contiguous substrings. -/
theorem joinWords_infix_mono {p s : List Char} (h : p <:+: s) :
    joinWords p <:+: joinWords s := by
  obtain ⟨u, v, rfl⟩ := h
  have h1 : joinWords p <+: joinWords (p ++ v) := joinWords_prefix_of_append p v
  have h2 : joinWords (p ++ v) <:+ joinWords (u ++ (p ++ v)) := joinWords_suffix u (p ++ v)
  have := h1.isInfix.trans h2.isInfix
  rwa [List.append_assoc]

/-! ### Lemmas about `strip` and `normalize_text` -/

theorem words_allws_append {a x : List Char} (ha : ∀ c ∈ a, isWS c = true) :
    words (a ++ x) = words x := by
  induction a with
  | nil => rw [List.nil_append]
  | cons c a' ih =>
    rw [List.cons_append, words_cons_ws _ (ha c (List.mem_cons_self _ _))]
    exact ih fun c hc => ha c (List.mem_cons_of_mem _ hc)

theorem words_append_allws {m t : List Char} (ht : ∀ c ∈ t, isWS c = true) :
    words (m ++ t) = words m := by
  induction m with
  | nil => rw [List.nil_append, words_eq_nil_iff.mpr ht, words]
  | cons c m' ih =>
    rw [List.cons_append]
    cases hc : isWS c with
    | true => rw [words_cons_ws _ hc, words_cons_ws _ hc]; exact ih
    | false =>
      cases m' with
      | nil =>
        rw [List.nil_append, words_singleton_nonws hc]
        cases t with
        | nil => rw [words_singleton_nonws hc]
        | cons e t' =>
          rw [words_cons_cons_ws t' hc (ht e (List.mem_cons_self _ _)),
            words_eq_nil_iff.mpr ht]
      | cons d m'' =>
        rw [List.cons_append] at ih ⊢
        cases hd : isWS d with
        | true =>
          rw [words_cons_cons_ws _ hc hd, words_cons_cons_ws _ hc hd, ih]
        | false =>
          rw [words_cons_cons_nonws' _ hc hd, words_cons_cons_nonws' _ hc hd, ih]

/-- Decomposition of a list into leading whitespace, its `strip`, and
trailing whitespace. -/
theorem strip_decomp (l : List Char) :
    ∃ a b, (∀ c ∈ a, isWS c = true) ∧ (∀ c ∈ b, isWS c = true) ∧
      l = a ++ strip l ++ b := by
  refine ⟨l.takeWhile isWS, ((l.dropWhile isWS).reverse.takeWhile isWS).reverse,
    fun c hc => List.mem_takeWhile_imp hc, ?_, ?_⟩
  · intro c hc
    rw [List.mem_reverse] at hc
    exact List.mem_takeWhile_imp hc
  · conv_lhs => rw [← List.takeWhile_append_dropWhile (p := isWS) (l := l)]
    rw [List.append_assoc]
    congr 1
    unfold strip
    conv_lhs => rw [← List.reverse_reverse (l.dropWhile isWS),
      ← List.takeWhile_append_dropWhile (p := isWS) (l := (l.dropWhile isWS).reverse)]
    rw [List.reverse_append]

theorem strip_infix_self (l : List Char) : strip l <:+: l := by
  obtain ⟨a, b, _, _, hl⟩ := strip_decomp l
  exact ⟨a, b, hl.symm⟩

theorem words_strip (l : List Char) : words (strip l) = words l := by
  obtain ⟨a, b, ha, hb, hl⟩ := strip_decomp l
  conv_rhs => rw [hl]
  rw [List.append_assoc, words_allws_append ha, words_append_allws hb]

theorem joinWords_strip (l : List Char) : joinWords (strip l) = joinWords l := by
  rw [joinWords, joinWords, words_strip]

theorem strip_eq_nil_of_allws {l : List Char} (h : ∀ c ∈ l, isWS c = true) :
    strip l = [] := by
  unfold strip
  rw [List.dropWhile_eq_nil_iff.mpr h]
  rfl

/-- Normalisation `normalize_text` is whitespace-normalisation of the lowercased string;
the inner `strip` of the Python code is redundant. -/
theorem normalize_text_eq (l : List Char) :
    normalize_text l = joinWords (l.map toLowerC) := by
  rw [normalize_text, joinWords_strip]

/-- Normalisation maps contiguous substrings to contiguous substrings. -/
theorem normalize_text_infix_mono {p s : List Char} (h : p <:+: s) :
    normalize_text p <:+: normalize_text s := by
  rw [normalize_text_eq, normalize_text_eq]
  exact joinWords_infix_mono (h.map toLowerC)

/-- A piece with a non-whitespace character has a nonempty normalisation. -/
theorem normalize_text_ne_nil {p : List Char} (h : strip p ≠ []) :
    normalize_text p ≠ [] := by
  rw [normalize_text_eq]
  intro hnil
  rw [joinWords_eq_nil_iff, words_eq_nil_iff] at hnil
  apply h
  apply strip_eq_nil_of_allws
  intro c hc
  have := hnil (toLowerC c) (List.mem_map_of_mem _ hc)
  by_contra hcw
  have hcw' : isWS c = false := by
    cases hx : isWS c
    · rfl
    · exact absurd hx hcw
  rw [isWS_toLowerC_of_not_ws hcw'] at this
  exact absurd this (by simp)

/-- If the stripped string normalises to nothing, so does the whole string. -/
theorem normalize_text_nil_of_strip {s : List Char}
    (h : normalize_text (strip s) = []) : normalize_text s = [] := by
  rw [normalize_text_eq] at h ⊢
  rw [joinWords_eq_nil_iff, words_eq_nil_iff] at h ⊢
  obtain ⟨a, b, ha, hb, hl⟩ := strip_decomp s
  intro c hc
  rw [List.mem_map] at hc
  obtain ⟨c₀, hc₀, rfl⟩ := hc
  rw [hl] at hc₀
  rcases List.mem_append.mp hc₀ with hc₁ | hc₁
  · rcases List.mem_append.mp hc₁ with hc₂ | hc₂
    · rw [toLowerC_of_ws (ha c₀ hc₂)]; exact ha c₀ hc₂
    · exact h (toLowerC c₀) (List.mem_map_of_mem _ hc₂)
  · rw [toLowerC_of_ws (hb c₀ hc₁)]; exact hb c₀ hc₁

theorem isSub_eq_true_iff {p s : List Char} : isSub p s = true ↔ p <:+: s := by
  induction s with
  | nil =>
    simp only [isSub, List.isEmpty_iff]
    constructor
    · intro h; rw [h]
    · intro h
      rcases h with ⟨u, v, huv⟩
      rcases List.append_eq_nil.mp huv with ⟨h1, h2⟩
      exact (List.append_eq_nil.mp h1).2
  | cons c t ih =>
    simp only [isSub, Bool.or_eq_true, List.isPrefixOf_iff_prefix, ih,
      List.infix_cons_iff]

theorem jaccard_nonneg (a b : List (List Char)) : 0 ≤ jaccard a b := by
  unfold jaccard
  split
  · norm_num
  · positivity

theorem jaccard_le_one (a b : List (List Char)) : jaccard a b ≤ 1 := by
  unfold jaccard
  split
  · exact le_refl 1
  case isFalse h =>
    set sa := a.toFinset
    set sb := b.toFinset
    have hsub : sa ∩ sb ⊆ sa ∪ sb := (Finset.inter_subset_left).trans
      Finset.subset_union_left
    have hcard : (sa ∩ sb).card ≤ (sa ∪ sb).card := Finset.card_le_card hsub
    have hpos : 0 < (sa ∪ sb).card := by
      rcases Nat.eq_zero_or_pos (sa ∪ sb).card with h0 | h0
      · exfalso
        have := Finset.card_eq_zero.mp h0
        rw [Finset.union_eq_empty] at this
        exact h this
      · exact h0
    rw [div_le_one (by exact_mod_cast hpos)]
    exact_mod_cast hcard

/-- Helper step for the scanner invariant: the result of `consHead` on a
well-shaped recursive result. -/
theorem consHead_invariant {c : Char} {cs : List Char} {res : List (List Char)}
    (hres : (∃ h t, res = h :: t ∧ h <+: cs) ∧ ∀ p ∈ res, p <:+: cs) :
    (∃ h t, consHead c res = h :: t ∧ h <+: c :: cs) ∧
      ∀ p ∈ consHead c res, p <:+: c :: cs := by
  obtain ⟨⟨h₀, t₀, hht, hpre⟩, hall⟩ := hres
  subst hht
  constructor
  · exact ⟨c :: h₀, t₀, rfl, (List.cons_prefix_cons).mpr ⟨rfl, hpre⟩⟩
  · intro p hp
    rcases List.mem_cons.mp hp with h | h
    · subst h
      exact ((List.cons_prefix_cons).mpr ⟨rfl, hpre⟩).isInfix
    · exact List.infix_cons (hall p (List.mem_cons_of_mem _ h))

/-- Structure of the scanner output: it is never empty, its first piece is
a prefix of the input, and every piece is a contiguous substring of the
input. -/
theorem splitAndF_pieces (fuel : ℕ) :
    ∀ (prev : Option Char) (l : List Char),
      (∃ h t, splitAndF fuel prev l = h :: t ∧ h <+: l) ∧
      ∀ p ∈ splitAndF fuel prev l, p <:+: l := by
  induction fuel with
  | zero =>
    intro prev l
    refine ⟨⟨l, [], rfl, List.prefix_refl l⟩, ?_⟩
    intro p hp
    simp only [splitAndF, List.mem_singleton] at hp
    simp [hp]
  | succ fuel ih =>
    intro prev l
    cases l with
    | nil =>
      refine ⟨⟨[], [], rfl, List.nil_prefix⟩, ?_⟩
      intro p hp
      simp only [splitAndF, List.mem_singleton] at hp
      simp [hp]
    | cons c cs =>
      show (∃ h t, splitAndF (fuel + 1) prev (c :: cs) = h :: t ∧ h <+: c :: cs) ∧
        ∀ p ∈ splitAndF (fuel + 1) prev (c :: cs), p <:+: c :: cs
      by_cases hdelim : (c == ',' || c == ';') = true
      · have heq : splitAndF (fuel + 1) prev (c :: cs) =
            [] :: splitAndF fuel (some c) cs := by
          simp only [splitAndF, hdelim, if_true]
        obtain ⟨-, hall⟩ := ih (some c) cs
        rw [heq]
        refine ⟨⟨[], _, rfl, List.nil_prefix⟩, ?_⟩
        intro p hp
        rcases List.mem_cons.mp hp with h | h
        · simp [h]
        · exact List.infix_cons (hall p h)
      · by_cases hguard : (c == 'a' && cs.take 2 == ['n', 'd'] && boundaryL prev
            && boundaryR (cs.drop 2)) = true
        · have heq : splitAndF (fuel + 1) prev (c :: cs) =
              [] :: splitAndF fuel (some 'd') (cs.drop 2) := by
            simp only [splitAndF, hdelim, hguard, Bool.false_eq_true, if_false,
              if_true]
          obtain ⟨-, hall⟩ := ih (some 'd') (cs.drop 2)
          rw [heq]
          refine ⟨⟨[], _, rfl, List.nil_prefix⟩, ?_⟩
          intro p hp
          rcases List.mem_cons.mp hp with h | h
          · simp [h]
          · exact List.infix_cons ((hall p h).trans (List.drop_suffix 2 cs).isInfix)
        · have heq : splitAndF (fuel + 1) prev (c :: cs) =
              consHead c (splitAndF fuel (some c) cs) := by
            simp only [splitAndF, hdelim, hguard, Bool.false_eq_true, if_false]
          rw [heq]
          exact consHead_invariant (ih (some c) cs)

theorem splitAnd_pieces (prev : Option Char) (l : List Char) :
    ∀ p ∈ splitAnd prev l, p <:+: l :=
  (splitAndF_pieces (l.length + 1) prev l).2

/-! ### Facts about `clause_split` and `sentence_match_score` -/

theorem clause_split_ne_nil (s : List Char) : clause_split s ≠ [] := by
  unfold clause_split
  dsimp only
  split
  · simp
  case isFalse h => simpa [List.isEmpty_iff] using h

/-- Every clause produced by `clause_split` is a contiguous substring of
the normalised sentence, and an empty clause forces the whole sentence to
normalise to nothing. -/
theorem clause_split_cases {s : List Char} :
    ∀ clause ∈ clause_split s,
      clause <:+: normalize_text s ∧ (clause = [] → normalize_text s = []) := by
  intro clause hmem
  unfold clause_split at hmem
  dsimp only at hmem
  split at hmem
  · -- fallback: the single normalised stripped sentence
    rw [List.mem_singleton] at hmem
    subst hmem
    refine ⟨normalize_text_infix_mono (strip_infix_self s), fun h => ?_⟩
    exact normalize_text_nil_of_strip h
  · -- a filtered, normalised piece of the scanner output
    rw [List.mem_map] at hmem
    obtain ⟨p, hp, rfl⟩ := hmem
    rw [List.mem_filter] at hp
    obtain ⟨hp, hps⟩ := hp
    have hstrip : strip p ≠ [] := by
      simpa [List.isEmpty_iff] using hps
    have hinf : p <:+: s :=
      (splitAnd_pieces none (strip s) p hp).trans (strip_infix_self s)
    exact ⟨normalize_text_infix_mono hinf, fun h => absurd h (normalize_text_ne_nil hstrip)⟩

theorem foldl_best_le_one (ctoks : List (List Char)) :
    ∀ (cts : List (List (List Char))) (b : ℚ), b ≤ 1 →
      cts.foldl (fun best ct =>
        if jaccard ctoks ct > best then jaccard ctoks ct else best) b ≤ 1 := by
  intro cts
  induction cts with
  | nil => intro b hb; exact hb
  | cons ct cts ih =>
    intro b hb
    rw [List.foldl_cons]
    apply ih
    split
    · exact jaccard_le_one _ _
    · exact hb

theorem foldl_best_ge_init (ctoks : List (List Char)) :
    ∀ (cts : List (List (List Char))) (b : ℚ),
      b ≤ cts.foldl (fun best ct =>
        if jaccard ctoks ct > best then jaccard ctoks ct else best) b := by
  intro cts
  induction cts with
  | nil => intro b; exact le_refl b
  | cons ct cts ih =>
    intro b
    rw [List.foldl_cons]
    refine le_trans ?_ (ih _)
    split
    case isTrue h => exact le_of_lt h
    case isFalse h => exact le_refl b

theorem foldl_best_ge_mem (ctoks : List (List Char)) :
    ∀ (cts : List (List (List Char))) (b : ℚ) (ct : List (List Char)),
      ct ∈ cts →
      jaccard ctoks ct ≤ cts.foldl (fun best c =>
        if jaccard ctoks c > best then jaccard ctoks c else best) b := by
  intro cts
  induction cts with
  | nil => intro b ct h; exact absurd h (List.not_mem_nil _)
  | cons ct' cts ih =>
    intro b ct h
    rw [List.foldl_cons]
    rcases List.mem_cons.mp h with h | h
    · subst h
      refine le_trans ?_ (foldl_best_ge_init ctoks cts _)
      split
      case isTrue h => exact le_refl _
      case isFalse h => exact le_of_not_lt h
    · exact ih _ ct h

theorem sum_of_all_one : ∀ (l : List ℚ), (∀ x ∈ l, x = 1) →
    l.sum = (l.length : ℚ) := by
  intro l
  induction l with
  | nil => simp
  | cons x t ih =>
    intro h
    rw [List.sum_cons, h x (List.mem_cons_self _ _),
      ih fun y hy => h y (List.mem_cons_of_mem _ hy), List.length_cons]
    push_cast
    ring

theorem sum_div_length_of_all_one {l : List ℚ} (h : ∀ x ∈ l, x = 1)
    (hne : l ≠ []) : l.sum / (l.length : ℚ) = 1 := by
  rw [sum_of_all_one l h]
  apply div_self
  have : l.length ≠ 0 := fun h0 => hne (List.length_eq_zero.mp h0)
  exact_mod_cast this

theorem clauseScore_eq_one_of_sub {cand_norms : List (List Char)}
    {cand_tokens : List (List (List Char))} {clause : List Char}
    (hne : clause ≠ [])
    (hsub : ∃ c ∈ cand_norms, (isSub clause c || isSub c clause) = true) :
    clauseScore cand_norms cand_tokens clause = 1 := by
  unfold clauseScore
  dsimp only
  rw [if_pos]
  · exact max_eq_right (foldl_best_le_one _ _ 0 (by norm_num))
  · rw [Bool.and_eq_true, List.any_eq_true]
    exact ⟨by simpa [List.isEmpty_iff] using hne, hsub⟩

theorem clauseScore_nil_eq_one {cand_norms : List (List Char)}
    {cand_tokens : List (List (List Char))}
    (h : ∃ ct ∈ cand_tokens, jaccard [] ct = 1) :
    clauseScore cand_norms cand_tokens [] = 1 := by
  unfold clauseScore
  dsimp only
  rw [if_neg (by simp)]
  obtain ⟨ct, hct, h1⟩ := h
  have hge := foldl_best_ge_mem (words []) cand_tokens 0 ct hct
  have hle := foldl_best_le_one (words []) cand_tokens 0 (by norm_num)
  have hw : words ([] : List Char) = [] := rfl
  rw [hw] at hge hle ⊢
  rw [h1] at hge
  exact le_antisymm hle hge

theorem jaccard_nil_nil : jaccard [] [] = 1 := by
  simp [jaccard]

/-- C9: for every sentence `s`, matching `s` against the candidate list
`[s]` yields exactly full identification credit:
`sentence_match_score s [s] = 1`. -/
theorem sentence_match_score_self (s : List Char) :
    sentence_match_score s [s] = 1 := by
  unfold sentence_match_score
  dsimp only
  rw [List.map_cons, List.map_nil, List.map_cons, List.map_nil]
  set scores := (clause_split s).map
    (clauseScore [normalize_text s] [words (normalize_text s)]) with hscores
  have hall : ∀ x ∈ scores, x = 1 := by
    intro x hx
    rw [hscores, List.mem_map] at hx
    obtain ⟨clause, hcl, rfl⟩ := hx
    obtain ⟨hinf, hnil⟩ := clause_split_cases clause hcl
    by_cases hc : clause = []
    · subst hc
      apply clauseScore_nil_eq_one
      refine ⟨words (normalize_text s), List.mem_singleton_self _, ?_⟩
      rw [hnil rfl]
      exact jaccard_nil_nil
    · apply clauseScore_eq_one_of_sub hc
      refine ⟨normalize_text s, List.mem_singleton_self _, ?_⟩
      rw [Bool.or_eq_true]
      exact Or.inl (isSub_eq_true_iff.mpr hinf)
  have hne : scores ≠ [] := by
    rw [hscores]
    simp only [ne_eq, List.map_eq_nil_iff]
    exact clause_split_ne_nil s
  rw [if_neg (by simpa [List.isEmpty_iff] using hne)]
  exact sum_div_length_of_all_one hall hne

/-- C10: a candidate list containing a string that normalises to the empty
string grants full identification credit for every ground-truth sentence:
the empty string is a substring of every nonempty clause, and has Jaccard
similarity `1.0` with an empty clause. -/
theorem sentence_match_score_empty_candidate
    (s : List Char) (cands : List (List Char)) (c : List Char)
    (hc : c ∈ cands) (hnorm : normalize_text c = []) :
    sentence_match_score s cands = 1 := by
  unfold sentence_match_score
  dsimp only
  set cand_norms := cands.map normalize_text with hcn
  set scores := (clause_split s).map
    (clauseScore cand_norms (cand_norms.map words)) with hscores
  have hmemnil : ([] : List Char) ∈ cand_norms := by
    rw [hcn, ← hnorm]
    exact List.mem_map_of_mem _ hc
  have hall : ∀ x ∈ scores, x = 1 := by
    intro x hx
    rw [hscores, List.mem_map] at hx
    obtain ⟨clause, hcl, rfl⟩ := hx
    by_cases hcnil : clause = []
    · subst hcnil
      apply clauseScore_nil_eq_one
      refine ⟨words [], List.mem_map_of_mem _ hmemnil, ?_⟩
      exact jaccard_nil_nil
    · apply clauseScore_eq_one_of_sub hcnil
      refine ⟨[], hmemnil, ?_⟩
      rw [Bool.or_eq_true]
      exact Or.inr (isSub_eq_true_iff.mpr List.nil_infix)
  have hne : scores ≠ [] := by
    rw [hscores]
    simp only [ne_eq, List.map_eq_nil_iff]
    exact clause_split_ne_nil s
  rw [if_neg (by simpa [List.isEmpty_iff] using hne)]
  exact sum_div_length_of_all_one hall hne

/-- Witness for C10 at a concrete input: the literal empty candidate
string normalises to the empty string and forces a full match score. -/
theorem sentence_match_score_empty_candidate_witness :
    ([] : List Char) ∈ [([] : List Char)] ∧
      normalize_text [] = [] ∧
      sentence_match_score ("ab cd".toList) [[]] = 1 := by
  refine ⟨List.mem_singleton_self _, rfl, ?_⟩
  exact sentence_match_score_empty_candidate ("ab cd".toList) [[]] []
    (List.mem_singleton_self _) rfl

/-! ### Claim C4 -/

/-- C4: for fixed `gt, pred` in `[-1, 1]`, the tolerance score
`sentiment_match_with_tolerance gt pred tol` is monotonically
non-decreasing in `tol` over `tol ≥ 0`, and it equals `1` whenever
`gt = pred` and the tolerance is non-negative. -/
theorem sentiment_match_with_tolerance_spec (gt pred t t₁ t₂ : ℚ) :
    (-1 ≤ gt → gt ≤ 1 → -1 ≤ pred → pred ≤ 1 → 0 ≤ t₁ → t₁ ≤ t₂ →
      sentiment_match_with_tolerance gt pred t₁ ≤
        sentiment_match_with_tolerance gt pred t₂) ∧
    (0 ≤ t → sentiment_match_with_tolerance gt gt t = 1) := by
  constructor
  · intro hgt1 hgt2 hp1 hp2 ht1 ht12
    have he0 : (0 : ℚ) ≤ |gt - pred| := abs_nonneg _
    have he2 : |gt - pred| ≤ 2 := by
      rw [abs_le]
      constructor <;> linarith
    unfold sentiment_match_with_tolerance
    split_ifs with h1 h2 h3 h4 h5 h6 h7 h8
    · exact le_refl 1
    · exfalso; exact h2 (le_trans h1 ht12)
    · exfalso; exact h2 (le_trans h1 ht12)
    · -- t₁ in band 2, t₂ in band 1
      have ht1pos : 0 < t₁ := by
        rcases eq_or_lt_of_le ht1 with h0 | h0
        · exfalso; rw [← h0] at h1 h4; push_neg at h1; linarith
        · exact h0
      have : 0 ≤ (|gt - pred| - t₁) / t₁ :=
        div_nonneg (by push_neg at h1; linarith) ht1pos.le
      linarith
    · -- both in band 2
      have ht1pos : 0 < t₁ := by
        rcases eq_or_lt_of_le ht1 with h0 | h0
        · exfalso; rw [← h0] at h1 h4; push_neg at h1; linarith
        · exact h0
      have ht2pos : 0 < t₂ := lt_of_lt_of_le ht1pos ht12
      have hdiv : (|gt - pred| - t₂) / t₂ ≤ (|gt - pred| - t₁) / t₁ := by
        rw [div_le_div_iff₀ ht2pos ht1pos]
        have hmul : |gt - pred| * t₁ ≤ |gt - pred| * t₂ :=
          mul_le_mul_of_nonneg_left ht12 he0
        nlinarith
      linarith
    · -- t₁ in band 2, t₂ in band 3: impossible
      exfalso; push_neg at h6; linarith
    · -- t₁ in band 3, t₂ in band 1
      push_neg at h1 h4
      have hd1 : (0 : ℚ) < 2 - 2 * t₁ := by linarith
      have hx : 0 ≤ (|gt - pred| - 2 * t₁) / (2 - 2 * t₁) :=
        div_nonneg (by linarith) hd1.le
      apply max_le (by norm_num)
      linarith
    · -- t₁ in band 3, t₂ in band 2
      push_neg at h1 h4 h7
      have hd1 : (0 : ℚ) < 2 - 2 * t₁ := by linarith
      have ht2pos : 0 < t₂ := by linarith
      have hx : 0 ≤ (|gt - pred| - 2 * t₁) / (2 - 2 * t₁) :=
        div_nonneg (by linarith) hd1.le
      have hy : (|gt - pred| - t₂) / t₂ ≤ 1 := by
        rw [div_le_one ht2pos]
        linarith
      apply max_le
      · linarith
      · linarith
    · -- both in band 3
      push_neg at h1 h4 h7 h8
      have hd1 : (0 : ℚ) < 2 - 2 * t₁ := by linarith
      have hd2 : (0 : ℚ) < 2 - 2 * t₂ := by linarith
      have hdiv : (|gt - pred| - 2 * t₂) / (2 - 2 * t₂) ≤
          (|gt - pred| - 2 * t₁) / (2 - 2 * t₁) := by
        rw [div_le_div_iff₀ hd2 hd1]
        nlinarith [mul_nonneg (sub_nonneg.mpr ht12)
          (by linarith : (0:ℚ) ≤ 2 - |gt - pred|)]
      have hmono : (1/2 : ℚ) * (1 - (|gt - pred| - 2 * t₁) / (2 - 2 * t₁)) ≤
          (1/2 : ℚ) * (1 - (|gt - pred| - 2 * t₂) / (2 - 2 * t₂)) := by linarith
      exact max_le_max (le_refl 0) hmono
  · intro ht
    unfold sentiment_match_with_tolerance
    rw [if_pos (by rw [sub_self, abs_zero]; exact ht)]

/-- Witness for C4 at concrete inputs. -/
theorem sentiment_match_with_tolerance_spec_witness :
    sentiment_match_with_tolerance (1/2) (-1/4) (1/10) ≤
      sentiment_match_with_tolerance (1/2) (-1/4) (3/10) ∧
    sentiment_match_with_tolerance (1/2) (1/2) (1/10) = 1 := by
  constructor
  · exact (sentiment_match_with_tolerance_spec (1/2) (-1/4) 0 (1/10) (3/10)).1
      (by norm_num) (by norm_num) (by norm_num) (by norm_num) (by norm_num)
      (by norm_num)
  · exact (sentiment_match_with_tolerance_spec (1/2) (1/2) (1/10) 0 0).2
      (by norm_num)

/-! ### Claim C8 -/

/-- C8: `aggregate_mixed_sentiment` returns `0.0` on an empty list for any
method; on a nonempty list, any method other than `"mean"` and
`"weighted_by_length"` raises, `"mean"` returns the arithmetic mean of the
scores, and `"weighted_by_length"` returns the length-weighted mean
(`0.0` when the total text length is zero). -/
theorem aggregate_mixed_sentiment_spec :
    (∀ method, aggregate_mixed_sentiment [] method = .ok 0) ∧
    (∀ (subs : List (List Char × ℚ)) (method : String), subs ≠ [] →
      method ≠ "mean" → method ≠ "weighted_by_length" →
      aggregate_mixed_sentiment subs method =
        .error ("Unknown aggregation method: " ++ method)) ∧
    (∀ (subs : List (List Char × ℚ)), subs ≠ [] →
      aggregate_mixed_sentiment subs "mean" =
        .ok ((subs.map Prod.snd).sum / (subs.length : ℚ))) ∧
    (∀ (subs : List (List Char × ℚ)), subs ≠ [] →
      aggregate_mixed_sentiment subs "weighted_by_length" =
        if (subs.map (fun p => p.1.length)).sum = 0 then .ok 0
        else .ok ((subs.map fun p => (p.1.length : ℚ) * p.2).sum
          / (((subs.map (fun p => p.1.length)).sum : ℕ) : ℚ))) := by
  refine ⟨?_, ?_, ?_, ?_⟩
  · intro method
    rfl
  · intro subs method hne hm hw
    rw [aggregate_mixed_sentiment,
      if_neg (by simpa [List.isEmpty_iff] using hne), if_neg hm, if_neg hw]
  · intro subs hne
    rw [aggregate_mixed_sentiment,
      if_neg (by simpa [List.isEmpty_iff] using hne), if_pos rfl]
  · intro subs hne
    rw [aggregate_mixed_sentiment,
      if_neg (by simpa [List.isEmpty_iff] using hne),
      if_neg (by decide), if_pos rfl]

/-- Witness for C8 at concrete inputs. -/
theorem aggregate_mixed_sentiment_spec_witness :
    aggregate_mixed_sentiment [] "bogus" = .ok 0 ∧
    aggregate_mixed_sentiment [("ab".toList, 1)] "bogus" =
      .error ("Unknown aggregation method: " ++ "bogus") ∧
    aggregate_mixed_sentiment [("ab".toList, 1)] "mean" =
      .ok ((([("ab".toList, (1 : ℚ))]).map Prod.snd).sum / 1) ∧
    aggregate_mixed_sentiment [("ab".toList, 1)] "weighted_by_length" =
      if (([("ab".toList, (1 : ℚ))]).map (fun p => p.1.length)).sum = 0 then .ok 0
      else .ok ((([("ab".toList, (1 : ℚ))]).map
          fun p => (p.1.length : ℚ) * p.2).sum
        / (((([("ab".toList, (1 : ℚ))]).map (fun p => p.1.length)).sum : ℕ) : ℚ)) := by
  refine ⟨aggregate_mixed_sentiment_spec.1 "bogus",
    aggregate_mixed_sentiment_spec.2.1 _ "bogus" (by simp) (by decide) (by decide),
    ?_, aggregate_mixed_sentiment_spec.2.2.2 _ (by simp)⟩
  have h := aggregate_mixed_sentiment_spec.2.2.1
    [("ab".toList, (1 : ℚ))] (by simp)
  simpa using h

/-! ### Claim C6 -/

/-- C6 counterexample: `clause_split` does not treat `"And"` as a split
point — the regex `\band\b` is compiled without `re.IGNORECASE` — whereas
the claimed case-insensitive splitter does. -/
theorem clause_split_counterexample :
    clause_split ("x And y".toList) = ["x and y".toList] ∧
    clause_split_claimed ("x And y".toList) = ["x".toList, "y".toList] := by
  constructor <;> decide

/-- C6 (amended): `clause_split` splits on commas, semicolons, or the
standalone lowercase word `and` at word boundaries (case-sensitively, so
`"And"` does not split), normalises the pieces, drops whitespace-only
pieces, and falls back to the single normalised whole sentence, never
returning an empty sequence. -/
theorem clause_split_spec :
    (∀ sentence, clause_split sentence ≠ []) ∧
    clause_split ("x, y; z and w".toList) =
      ["x".toList, "y".toList, "z".toList, "w".toList] ∧
    clause_split ("sand dunes".toList) = ["sand dunes".toList] ∧
    clause_split (",;".toList) = [",;".toList] := by
  refine ⟨?_, by decide, by decide, by decide⟩
  intro sentence
  unfold clause_split
  dsimp only
  split
  · simp
  case isFalse h => simpa [List.isEmpty_iff] using h

/-! ### Claim C7 -/

/-- C7 counterexample: `split_mixed_sentiment_sentence` does not split on
`nevertheless` — the split regex lists only six conjunctions — whereas the
claimed splitter (with `nevertheless` included) does. -/
theorem split_mixed_counterexample :
    split_mixed_sentiment_sentence ("good nevertheless bad".toList) =
      ["good nevertheless bad".toList] ∧
    split_mixed_claimed ("good nevertheless bad".toList) =
      ["good".toList, "bad".toList] := by
  constructor <;> decide

/-- C7 (amended): `split_mixed_sentiment_sentence` splits on commas,
semicolons, and the whitespace-delimited contrast conjunctions
`but, however, although, despite, while, yet` (case-insensitive; without
`nevertheless`), further splits resulting pieces on the word `and`, trims
and drops empty pieces, and never returns an empty list. -/
theorem split_mixed_sentiment_sentence_spec :
    (∀ sentence, split_mixed_sentiment_sentence sentence ≠ []) ∧
    split_mixed_sentiment_sentence ("growth, but decline".toList) =
      ["growth".toList, "decline".toList] ∧
    split_mixed_sentiment_sentence ("a WHILE b and c".toList) =
      ["a".toList, "b".toList, "c".toList] := by
  refine ⟨?_, by decide, by decide⟩
  intro sentence
  unfold split_mixed_sentiment_sentence
  dsimp only
  split
  · simp
  case isFalse h => simpa [List.isEmpty_iff] using h

/-! ### Claim C5 -/

/-- C5: `score_to_label` clamps the score to `[-1, 1]` and returns the
label of the first rubric range (scanning the seven ranges in their fixed
order) whose closed interval contains the clamped score; such a range
always exists, so the function is total and the nearest-center fallback is
never taken; on shared boundaries the earlier range wins, e.g.
`score_to_label 0.35 = slightly_positive` (not `positive`). -/
theorem score_to_label_spec :
    (∀ q : ℚ,
      (SENTIMENT_RUBRIC.find? fun sr =>
          sr.containsScore (max (-1) (min 1 q))).map SentimentRange.label =
        some (score_to_label q)) ∧
    score_to_label (35/100) = SentimentLabel.slightly_positive ∧
    score_to_label 2 = SentimentLabel.strongly_positive ∧
    score_to_label (-2) = SentimentLabel.strongly_negative := by
  have main : ∀ q : ℚ,
      (SENTIMENT_RUBRIC.find? fun sr =>
          sr.containsScore (max (-1) (min 1 q))).map SentimentRange.label =
        some (score_to_label q) := by
    intro q
    have hs1 : (-1 : ℚ) ≤ max (-1) (min 1 q) := le_max_left _ _
    have hs2 : max (-1) (min 1 q) ≤ (1 : ℚ) :=
      max_le (by norm_num) (min_le_left _ _)
    rcases le_or_lt (max (-1) (min 1 q)) (-3/4) with h1 | h1
    ·
      have hpos : ((fun sr => sr.containsScore (max (-1) (min 1 q))) sr_strongly_negative) = true := by
        show (decide ((-1 : ℚ) ≤ max (-1) (min 1 q)) && decide (max (-1) (min 1 q) ≤ (-3/4 : ℚ))) = true
        simp only [Bool.and_eq_true, decide_eq_true_eq]
        exact ⟨by linarith, by linarith⟩
      have hfind : SENTIMENT_RUBRIC.find? (fun sr => sr.containsScore (max (-1) (min 1 q))) = some sr_strongly_negative := by
        unfold SENTIMENT_RUBRIC
        rw [List.find?_cons_of_pos (p := fun (sr : SentimentRange) => sr.containsScore (max (-1) (min 1 q))) _ hpos]
      unfold score_to_label
      simp only [hfind]
      rfl
    rcases le_or_lt (max (-1) (min 1 q)) (-7/20) with h2 | h2
    ·
      have hneg0 : ¬((fun sr => sr.containsScore (max (-1) (min 1 q))) sr_strongly_negative = true) := by
        show ¬((decide ((-1 : ℚ) ≤ max (-1) (min 1 q)) && decide (max (-1) (min 1 q) ≤ (-3/4 : ℚ))) = true)
        simp only [Bool.and_eq_true, decide_eq_true_eq, not_and]
        intro hx hy
        linarith
      have hpos : ((fun sr => sr.containsScore (max (-1) (min 1 q))) sr_negative) = true := by
        show (decide ((-3/4 : ℚ) ≤ max (-1) (min 1 q)) && decide (max (-1) (min 1 q) ≤ (-7/20 : ℚ))) = true
        simp only [Bool.and_eq_true, decide_eq_true_eq]
        exact ⟨by linarith, by linarith⟩
      have hfind : SENTIMENT_RUBRIC.find? (fun sr => sr.containsScore (max (-1) (min 1 q))) = some sr_negative := by
        unfold SENTIMENT_RUBRIC
        rw [List.find?_cons_of_neg (p := fun (sr : SentimentRange) => sr.containsScore (max (-1) (min 1 q))) _ hneg0, List.find?_cons_of_pos (p := fun (sr : SentimentRange) => sr.containsScore (max (-1) (min 1 q))) _ hpos]
      unfold score_to_label
      simp only [hfind]
      rfl
    rcases le_or_lt (max (-1) (min 1 q)) (-1/20) with h3 | h3
    ·
      have hneg0 : ¬((fun sr => sr.containsScore (max (-1) (min 1 q))) sr_strongly_negative = true) := by
        show ¬((decide ((-1 : ℚ) ≤ max (-1) (min 1 q)) && decide (max (-1) (min 1 q) ≤ (-3/4 : ℚ))) = true)
        simp only [Bool.and_eq_true, decide_eq_true_eq, not_and]
        intro hx hy
        linarith
      have hneg1 : ¬((fun sr => sr.containsScore (max (-1) (min 1 q))) sr_negative = true) := by
        show ¬((decide ((-3/4 : ℚ) ≤ max (-1) (min 1 q)) && decide (max (-1) (min 1 q) ≤ (-7/20 : ℚ))) = true)
        simp only [Bool.and_eq_true, decide_eq_true_eq, not_and]
        intro hx hy
        linarith
      have hpos : ((fun sr => sr.containsScore (max (-1) (min 1 q))) sr_slightly_negative) = true := by
        show (decide ((-7/20 : ℚ) ≤ max (-1) (min 1 q)) && decide (max (-1) (min 1 q) ≤ (-1/20 : ℚ))) = true
        simp only [Bool.and_eq_true, decide_eq_true_eq]
        exact ⟨by linarith, by linarith⟩
      have hfind : SENTIMENT_RUBRIC.find? (fun sr => sr.containsScore (max (-1) (min 1 q))) = some sr_slightly_negative := by
        unfold SENTIMENT_RUBRIC
        rw [List.find?_cons_of_neg (p := fun (sr : SentimentRange) => sr.containsScore (max (-1) (min 1 q))) _ hneg0, List.find?_cons_of_neg (p := fun (sr : SentimentRange) => sr.containsScore (max (-1) (min 1 q))) _ hneg1, List.find?_cons_of_pos (p := fun (sr : SentimentRange) => sr.containsScore (max (-1) (min 1 q))) _ hpos]
      unfold score_to_label
      simp only [hfind]
      rfl
    rcases le_or_lt (max (-1) (min 1 q)) (1/20) with h4 | h4
    ·
      have hneg0 : ¬((fun sr => sr.containsScore (max (-1) (min 1 q))) sr_strongly_negative = true) := by
        show ¬((decide ((-1 : ℚ) ≤ max (-1) (min 1 q)) && decide (max (-1) (min 1 q) ≤ (-3/4 : ℚ))) = true)
        simp only [Bool.and_eq_true, decide_eq_true_eq, not_and]
        intro hx hy
        linarith
      have hneg1 : ¬((fun sr => sr.containsScore (max (-1) (min 1 q))) sr_negative = true) := by
        show ¬((decide ((-3/4 : ℚ) ≤ max (-1) (min 1 q)) && decide (max (-1) (min 1 q) ≤ (-7/20 : ℚ))) = true)
        simp only [Bool.and_eq_true, decide_eq_true_eq, not_and]
        intro hx hy
        linarith
      have hneg2 : ¬((fun sr => sr.containsScore (max (-1) (min 1 q))) sr_slightly_negative = true) := by
        show ¬((decide ((-7/20 : ℚ) ≤ max (-1) (min 1 q)) && decide (max (-1) (min 1 q) ≤ (-1/20 : ℚ))) = true)
        simp only [Bool.and_eq_true, decide_eq_true_eq, not_and]
        intro hx hy
        linarith
      have hpos : ((fun sr => sr.containsScore (max (-1) (min 1 q))) sr_neutral) = true := by
        show (decide ((-1/20 : ℚ) ≤ max (-1) (min 1 q)) && decide (max (-1) (min 1 q) ≤ (1/20 : ℚ))) = true
        simp only [Bool.and_eq_true, decide_eq_true_eq]
        exact ⟨by linarith, by linarith⟩
      have hfind : SENTIMENT_RUBRIC.find? (fun sr => sr.containsScore (max (-1) (min 1 q))) = some sr_neutral := by
        unfold SENTIMENT_RUBRIC
        rw [List.find?_cons_of_neg (p := fun (sr : SentimentRange) => sr.containsScore (max (-1) (min 1 q))) _ hneg0, List.find?_cons_of_neg (p := fun (sr : SentimentRange) => sr.containsScore (max (-1) (min 1 q))) _ hneg1, List.find?_cons_of_neg (p := fun (sr : SentimentRange) => sr.containsScore (max (-1) (min 1 q))) _ hneg2, List.find?_cons_of_pos (p := fun (sr : SentimentRange) => sr.containsScore (max (-1) (min 1 q))) _ hpos]
      unfold score_to_label
      simp only [hfind]
      rfl
    rcases le_or_lt (max (-1) (min 1 q)) (7/20) with h5 | h5
    ·
      have hneg0 : ¬((fun sr => sr.containsScore (max (-1) (min 1 q))) sr_strongly_negative = true) := by
        show ¬((decide ((-1 : ℚ) ≤ max (-1) (min 1 q)) && decide (max (-1) (min 1 q) ≤ (-3/4 : ℚ))) = true)
        simp only [Bool.and_eq_true, decide_eq_true_eq, not_and]
        intro hx hy
        linarith
      have hneg1 : ¬((fun sr => sr.containsScore (max (-1) (min 1 q))) sr_negative = true) := by
        show ¬((decide ((-3/4 : ℚ) ≤ max (-1) (min 1 q)) && decide (max (-1) (min 1 q) ≤ (-7/20 : ℚ))) = true)
        simp only [Bool.and_eq_true, decide_eq_true_eq, not_and]
        intro hx hy
        linarith
      have hneg2 : ¬((fun sr => sr.containsScore (max (-1) (min 1 q))) sr_slightly_negative = true) := by
        show ¬((decide ((-7/20 : ℚ) ≤ max (-1) (min 1 q)) && decide (max (-1) (min 1 q) ≤ (-1/20 : ℚ))) = true)
        simp only [Bool.and_eq_true, decide_eq_true_eq, not_and]
        intro hx hy
        linarith
      have hneg3 : ¬((fun sr => sr.containsScore (max (-1) (min 1 q))) sr_neutral = true) := by
        show ¬((decide ((-1/20 : ℚ) ≤ max (-1) (min 1 q)) && decide (max (-1) (min 1 q) ≤ (1/20 : ℚ))) = true)
        simp only [Bool.and_eq_true, decide_eq_true_eq, not_and]
        intro hx hy
        linarith
      have hpos : ((fun sr => sr.containsScore (max (-1) (min 1 q))) sr_slightly_positive) = true := by
        show (decide ((1/20 : ℚ) ≤ max (-1) (min 1 q)) && decide (max (-1) (min 1 q) ≤ (7/20 : ℚ))) = true
        simp only [Bool.and_eq_true, decide_eq_true_eq]
        exact ⟨by linarith, by linarith⟩
      have hfind : SENTIMENT_RUBRIC.find? (fun sr => sr.containsScore (max (-1) (min 1 q))) = some sr_slightly_positive := by
        unfold SENTIMENT_RUBRIC
        rw [List.find?_cons_of_neg (p := fun (sr : SentimentRange) => sr.containsScore (max (-1) (min 1 q))) _ hneg0, List.find?_cons_of_neg (p := fun (sr : SentimentRange) => sr.containsScore (max (-1) (min 1 q))) _ hneg1, List.find?_cons_of_neg (p := fun (sr : SentimentRange) => sr.containsScore (max (-1) (min 1 q))) _ hneg2, List.find?_cons_of_neg (p := fun (sr : SentimentRange) => sr.containsScore (max (-1) (min 1 q))) _ hneg3, List.find?_cons_of_pos (p := fun (sr : SentimentRange) => sr.containsScore (max (-1) (min 1 q))) _ hpos]
      unfold score_to_label
      simp only [hfind]
      rfl
    rcases le_or_lt (max (-1) (min 1 q)) (3/4) with h6 | h6
    ·
      have hneg0 : ¬((fun sr => sr.containsScore (max (-1) (min 1 q))) sr_strongly_negative = true) := by
        show ¬((decide ((-1 : ℚ) ≤ max (-1) (min 1 q)) && decide (max (-1) (min 1 q) ≤ (-3/4 : ℚ))) = true)
        simp only [Bool.and_eq_true, decide_eq_true_eq, not_and]
        intro hx hy
        linarith
      have hneg1 : ¬((fun sr => sr.containsScore (max (-1) (min 1 q))) sr_negative = true) := by
        show ¬((decide ((-3/4 : ℚ) ≤ max (-1) (min 1 q)) && decide (max (-1) (min 1 q) ≤ (-7/20 : ℚ))) = true)
        simp only [Bool.and_eq_true, decide_eq_true_eq, not_and]
        intro hx hy
        linarith
      have hneg2 : ¬((fun sr => sr.containsScore (max (-1) (min 1 q))) sr_slightly_negative = true) := by
        show ¬((decide ((-7/20 : ℚ) ≤ max (-1) (min 1 q)) && decide (max (-1) (min 1 q) ≤ (-1/20 : ℚ))) = true)
        simp only [Bool.and_eq_true, decide_eq_true_eq, not_and]
        intro hx hy
        linarith
      have hneg3 : ¬((fun sr => sr.containsScore (max (-1) (min 1 q))) sr_neutral = true) := by
        show ¬((decide ((-1/20 : ℚ) ≤ max (-1) (min 1 q)) && decide (max (-1) (min 1 q) ≤ (1/20 : ℚ))) = true)
        simp only [Bool.and_eq_true, decide_eq_true_eq, not_and]
        intro hx hy
        linarith
      have hneg4 : ¬((fun sr => sr.containsScore (max (-1) (min 1 q))) sr_slightly_positive = true) := by
        show ¬((decide ((1/20 : ℚ) ≤ max (-1) (min 1 q)) && decide (max (-1) (min 1 q) ≤ (7/20 : ℚ))) = true)
        simp only [Bool.and_eq_true, decide_eq_true_eq, not_and]
        intro hx hy
        linarith
      have hpos : ((fun sr => sr.containsScore (max (-1) (min 1 q))) sr_positive) = true := by
        show (decide ((7/20 : ℚ) ≤ max (-1) (min 1 q)) && decide (max (-1) (min 1 q) ≤ (3/4 : ℚ))) = true
        simp only [Bool.and_eq_true, decide_eq_true_eq]
        exact ⟨by linarith, by linarith⟩
      have hfind : SENTIMENT_RUBRIC.find? (fun sr => sr.containsScore (max (-1) (min 1 q))) = some sr_positive := by
        unfold SENTIMENT_RUBRIC
        rw [List.find?_cons_of_neg (p := fun (sr : SentimentRange) => sr.containsScore (max (-1) (min 1 q))) _ hneg0, List.find?_cons_of_neg (p := fun (sr : SentimentRange) => sr.containsScore (max (-1) (min 1 q))) _ hneg1, List.find?_cons_of_neg (p := fun (sr : SentimentRange) => sr.containsScore (max (-1) (min 1 q))) _ hneg2, List.find?_cons_of_neg (p := fun (sr : SentimentRange) => sr.containsScore (max (-1) (min 1 q))) _ hneg3, List.find?_cons_of_neg (p := fun (sr : SentimentRange) => sr.containsScore (max (-1) (min 1 q))) _ hneg4, List.find?_cons_of_pos (p := fun (sr : SentimentRange) => sr.containsScore (max (-1) (min 1 q))) _ hpos]
      unfold score_to_label
      simp only [hfind]
      rfl
    ·
      have hneg0 : ¬((fun sr => sr.containsScore (max (-1) (min 1 q))) sr_strongly_negative = true) := by
        show ¬((decide ((-1 : ℚ) ≤ max (-1) (min 1 q)) && decide (max (-1) (min 1 q) ≤ (-3/4 : ℚ))) = true)
        simp only [Bool.and_eq_true, decide_eq_true_eq, not_and]
        intro hx hy
        linarith
      have hneg1 : ¬((fun sr => sr.containsScore (max (-1) (min 1 q))) sr_negative = true) := by
        show ¬((decide ((-3/4 : ℚ) ≤ max (-1) (min 1 q)) && decide (max (-1) (min 1 q) ≤ (-7/20 : ℚ))) = true)
        simp only [Bool.and_eq_true, decide_eq_true_eq, not_and]
        intro hx hy
        linarith
      have hneg2 : ¬((fun sr => sr.containsScore (max (-1) (min 1 q))) sr_slightly_negative = true) := by
        show ¬((decide ((-7/20 : ℚ) ≤ max (-1) (min 1 q)) && decide (max (-1) (min 1 q) ≤ (-1/20 : ℚ))) = true)
        simp only [Bool.and_eq_true, decide_eq_true_eq, not_and]
        intro hx hy
        linarith
      have hneg3 : ¬((fun sr => sr.containsScore (max (-1) (min 1 q))) sr_neutral = true) := by
        show ¬((decide ((-1/20 : ℚ) ≤ max (-1) (min 1 q)) && decide (max (-1) (min 1 q) ≤ (1/20 : ℚ))) = true)
        simp only [Bool.and_eq_true, decide_eq_true_eq, not_and]
        intro hx hy
        linarith
      have hneg4 : ¬((fun sr => sr.containsScore (max (-1) (min 1 q))) sr_slightly_positive = true) := by
        show ¬((decide ((1/20 : ℚ) ≤ max (-1) (min 1 q)) && decide (max (-1) (min 1 q) ≤ (7/20 : ℚ))) = true)
        simp only [Bool.and_eq_true, decide_eq_true_eq, not_and]
        intro hx hy
        linarith
      have hneg5 : ¬((fun sr => sr.containsScore (max (-1) (min 1 q))) sr_positive = true) := by
        show ¬((decide ((7/20 : ℚ) ≤ max (-1) (min 1 q)) && decide (max (-1) (min 1 q) ≤ (3/4 : ℚ))) = true)
        simp only [Bool.and_eq_true, decide_eq_true_eq, not_and]
        intro hx hy
        linarith
      have hpos : ((fun sr => sr.containsScore (max (-1) (min 1 q))) sr_strongly_positive) = true := by
        show (decide ((3/4 : ℚ) ≤ max (-1) (min 1 q)) && decide (max (-1) (min 1 q) ≤ (1 : ℚ))) = true
        simp only [Bool.and_eq_true, decide_eq_true_eq]
        exact ⟨by linarith, by linarith⟩
      have hfind : SENTIMENT_RUBRIC.find? (fun sr => sr.containsScore (max (-1) (min 1 q))) = some sr_strongly_positive := by
        unfold SENTIMENT_RUBRIC
        rw [List.find?_cons_of_neg (p := fun (sr : SentimentRange) => sr.containsScore (max (-1) (min 1 q))) _ hneg0, List.find?_cons_of_neg (p := fun (sr : SentimentRange) => sr.containsScore (max (-1) (min 1 q))) _ hneg1, List.find?_cons_of_neg (p := fun (sr : SentimentRange) => sr.containsScore (max (-1) (min 1 q))) _ hneg2, List.find?_cons_of_neg (p := fun (sr : SentimentRange) => sr.containsScore (max (-1) (min 1 q))) _ hneg3, List.find?_cons_of_neg (p := fun (sr : SentimentRange) => sr.containsScore (max (-1) (min 1 q))) _ hneg4, List.find?_cons_of_neg (p := fun (sr : SentimentRange) => sr.containsScore (max (-1) (min 1 q))) _ hneg5, List.find?_cons_of_pos (p := fun (sr : SentimentRange) => sr.containsScore (max (-1) (min 1 q))) _ hpos]
      unfold score_to_label
      simp only [hfind]
      rfl
  refine ⟨main, ?_, ?_, ?_⟩
  · have h := main (35/100)
    have hclamp : max (-1 : ℚ) (min 1 (35/100)) = 7/20 := by
      norm_num [min_def, max_def]
    rw [hclamp] at h
    have hneg0 : ¬((fun sr => sr.containsScore ((7/20 : ℚ))) sr_strongly_negative = true) := by
      show ¬((decide ((-1 : ℚ) ≤ (7/20 : ℚ)) && decide ((7/20 : ℚ) ≤ (-3/4 : ℚ))) = true)
      simp only [Bool.and_eq_true, decide_eq_true_eq, not_and]
      intro hx hy
      linarith
    have hneg1 : ¬((fun sr => sr.containsScore ((7/20 : ℚ))) sr_negative = true) := by
      show ¬((decide ((-3/4 : ℚ) ≤ (7/20 : ℚ)) && decide ((7/20 : ℚ) ≤ (-7/20 : ℚ))) = true)
      simp only [Bool.and_eq_true, decide_eq_true_eq, not_and]
      intro hx hy
      linarith
    have hneg2 : ¬((fun sr => sr.containsScore ((7/20 : ℚ))) sr_slightly_negative = true) := by
      show ¬((decide ((-7/20 : ℚ) ≤ (7/20 : ℚ)) && decide ((7/20 : ℚ) ≤ (-1/20 : ℚ))) = true)
      simp only [Bool.and_eq_true, decide_eq_true_eq, not_and]
      intro hx hy
      linarith
    have hneg3 : ¬((fun sr => sr.containsScore ((7/20 : ℚ))) sr_neutral = true) := by
      show ¬((decide ((-1/20 : ℚ) ≤ (7/20 : ℚ)) && decide ((7/20 : ℚ) ≤ (1/20 : ℚ))) = true)
      simp only [Bool.and_eq_true, decide_eq_true_eq, not_and]
      intro hx hy
      linarith
    have hpos : ((fun sr => sr.containsScore ((7/20 : ℚ))) sr_slightly_positive) = true := by
      show (decide ((1/20 : ℚ) ≤ (7/20 : ℚ)) && decide ((7/20 : ℚ) ≤ (7/20 : ℚ))) = true
      simp only [Bool.and_eq_true, decide_eq_true_eq]
      exact ⟨by norm_num, by norm_num⟩
    have hfind : SENTIMENT_RUBRIC.find? (fun sr => sr.containsScore ((7/20 : ℚ))) = some sr_slightly_positive := by
      unfold SENTIMENT_RUBRIC
      rw [List.find?_cons_of_neg (p := fun (sr : SentimentRange) => sr.containsScore ((7/20 : ℚ))) _ hneg0, List.find?_cons_of_neg (p := fun (sr : SentimentRange) => sr.containsScore ((7/20 : ℚ))) _ hneg1, List.find?_cons_of_neg (p := fun (sr : SentimentRange) => sr.containsScore ((7/20 : ℚ))) _ hneg2, List.find?_cons_of_neg (p := fun (sr : SentimentRange) => sr.containsScore ((7/20 : ℚ))) _ hneg3, List.find?_cons_of_pos (p := fun (sr : SentimentRange) => sr.containsScore ((7/20 : ℚ))) _ hpos]
    rw [hfind] at h
    exact (Option.some_injective _ h).symm
  · have h := main 2
    have hclamp : max (-1 : ℚ) (min 1 2) = 1 := by
      norm_num [min_def, max_def]
    rw [hclamp] at h
    have hneg0 : ¬((fun sr => sr.containsScore ((1 : ℚ))) sr_strongly_negative = true) := by
      show ¬((decide ((-1 : ℚ) ≤ (1 : ℚ)) && decide ((1 : ℚ) ≤ (-3/4 : ℚ))) = true)
      simp only [Bool.and_eq_true, decide_eq_true_eq, not_and]
      intro hx hy
      linarith
    have hneg1 : ¬((fun sr => sr.containsScore ((1 : ℚ))) sr_negative = true) := by
      show ¬((decide ((-3/4 : ℚ) ≤ (1 : ℚ)) && decide ((1 : ℚ) ≤ (-7/20 : ℚ))) = true)
      simp only [Bool.and_eq_true, decide_eq_true_eq, not_and]
      intro hx hy
      linarith
    have hneg2 : ¬((fun sr => sr.containsScore ((1 : ℚ))) sr_slightly_negative = true) := by
      show ¬((decide ((-7/20 : ℚ) ≤ (1 : ℚ)) && decide ((1 : ℚ) ≤ (-1/20 : ℚ))) = true)
      simp only [Bool.and_eq_true, decide_eq_true_eq, not_and]
      intro hx hy
      linarith
    have hneg3 : ¬((fun sr => sr.containsScore ((1 : ℚ))) sr_neutral = true) := by
      show ¬((decide ((-1/20 : ℚ) ≤ (1 : ℚ)) && decide ((1 : ℚ) ≤ (1/20 : ℚ))) = true)
      simp only [Bool.and_eq_true, decide_eq_true_eq, not_and]
      intro hx hy
      linarith
    have hneg4 : ¬((fun sr => sr.containsScore ((1 : ℚ))) sr_slightly_positive = true) := by
      show ¬((decide ((1/20 : ℚ) ≤ (1 : ℚ)) && decide ((1 : ℚ) ≤ (7/20 : ℚ))) = true)
      simp only [Bool.and_eq_true, decide_eq_true_eq, not_and]
      intro hx hy
      linarith
    have hneg5 : ¬((fun sr => sr.containsScore ((1 : ℚ))) sr_positive = true) := by
      show ¬((decide ((7/20 : ℚ) ≤ (1 : ℚ)) && decide ((1 : ℚ) ≤ (3/4 : ℚ))) = true)
      simp only [Bool.and_eq_true, decide_eq_true_eq, not_and]
      intro hx hy
      linarith
    have hpos : ((fun sr => sr.containsScore ((1 : ℚ))) sr_strongly_positive) = true := by
      show (decide ((3/4 : ℚ) ≤ (1 : ℚ)) && decide ((1 : ℚ) ≤ (1 : ℚ))) = true
      simp only [Bool.and_eq_true, decide_eq_true_eq]
      exact ⟨by norm_num, by norm_num⟩
    have hfind : SENTIMENT_RUBRIC.find? (fun sr => sr.containsScore ((1 : ℚ))) = some sr_strongly_positive := by
      unfold SENTIMENT_RUBRIC
      rw [List.find?_cons_of_neg (p := fun (sr : SentimentRange) => sr.containsScore ((1 : ℚ))) _ hneg0, List.find?_cons_of_neg (p := fun (sr : SentimentRange) => sr.containsScore ((1 : ℚ))) _ hneg1, List.find?_cons_of_neg (p := fun (sr : SentimentRange) => sr.containsScore ((1 : ℚ))) _ hneg2, List.find?_cons_of_neg (p := fun (sr : SentimentRange) => sr.containsScore ((1 : ℚ))) _ hneg3, List.find?_cons_of_neg (p := fun (sr : SentimentRange) => sr.containsScore ((1 : ℚ))) _ hneg4, List.find?_cons_of_neg (p := fun (sr : SentimentRange) => sr.containsScore ((1 : ℚ))) _ hneg5, List.find?_cons_of_pos (p := fun (sr : SentimentRange) => sr.containsScore ((1 : ℚ))) _ hpos]
    rw [hfind] at h
    exact (Option.some_injective _ h).symm
  · have h := main (-2)
    have hclamp : max (-1 : ℚ) (min 1 (-2)) = -1 := by
      norm_num [min_def, max_def]
    rw [hclamp] at h
    have hpos : ((fun sr => sr.containsScore ((-1 : ℚ))) sr_strongly_negative) = true := by
      show (decide ((-1 : ℚ) ≤ (-1 : ℚ)) && decide ((-1 : ℚ) ≤ (-3/4 : ℚ))) = true
      simp only [Bool.and_eq_true, decide_eq_true_eq]
      exact ⟨by norm_num, by norm_num⟩
    have hfind : SENTIMENT_RUBRIC.find? (fun sr => sr.containsScore ((-1 : ℚ))) = some sr_strongly_negative := by
      unfold SENTIMENT_RUBRIC
      rw [List.find?_cons_of_pos (p := fun (sr : SentimentRange) => sr.containsScore ((-1 : ℚ))) _ hpos]
    rw [hfind] at h
    exact (Option.some_injective _ h).symm

/-! ### Claim C1 -/

/-- C1: the aggregates of `evaluate` are the arithmetic means of the
per-item scores over the number of ground-truth items (0 when there are
none), the combined sentiment is
`0.5*sentiment_tolerance + 0.3*sentiment_basic + 0.2*sentiment_label`,
the composite is `0.4*identification + 0.6*sentiment`, and every reported
average is rounded to 4 decimal places (the weighted combinations are
computed from the unrounded means and then rounded). -/
theorem evaluate_aggregates (gts : List GTRecord) (preds : List PredRecord)
    (tol : ℚ) (det : Bool) :
    (evaluate gts preds tol det).items = gts.length ∧
    (evaluate gts preds tol det).identification =
      round4 (evalMean gts preds tol ItemDetail.identification_score) ∧
    (evaluate gts preds tol det).sentiment_basic =
      round4 (evalMean gts preds tol ItemDetail.sentiment_basic) ∧
    (evaluate gts preds tol det).sentiment_tolerance =
      round4 (evalMean gts preds tol ItemDetail.sentiment_tolerance) ∧
    (evaluate gts preds tol det).sentiment_label =
      round4 (evalMean gts preds tol ItemDetail.sentiment_label) ∧
    (evaluate gts preds tol det).sentiment =
      round4 ((1/2) * evalMean gts preds tol ItemDetail.sentiment_tolerance
        + (3/10) * evalMean gts preds tol ItemDetail.sentiment_basic
        + (1/5) * evalMean gts preds tol ItemDetail.sentiment_label) ∧
    (evaluate gts preds tol det).composite =
      round4 ((2/5) * evalMean gts preds tol ItemDetail.identification_score
        + (3/5) * ((1/2) * evalMean gts preds tol ItemDetail.sentiment_tolerance
          + (3/10) * evalMean gts preds tol ItemDetail.sentiment_basic
          + (1/5) * evalMean gts preds tol ItemDetail.sentiment_label)) := by
  refine ⟨rfl, ?_, ?_, ?_, ?_, ?_, ?_⟩ <;>
    simp only [evaluate, evalMean, List.map_map] <;> rfl

/-! ### Claim C2 -/

/-- C2: a ground-truth record whose id has no matching prediction is
scored as a full miss: its detail entry has `missing_prediction = true`
and zero identification and sentiment sub-scores, and it still counts
toward `items`; a prediction whose id matches no ground-truth record
changes no output. -/
theorem evaluate_missing_prediction (gts : List GTRecord)
    (preds : List PredRecord) (tol : ℚ) (i : ℕ) (hi : i < gts.length)
    (hnone : lookupPred preds (gts.get ⟨i, hi⟩).id = none) :
    (((evaluate gts preds tol true).per_item.getD []).getD i
      default).missing_prediction = true ∧
    (((evaluate gts preds tol true).per_item.getD []).getD i
      default).identification_score = 0 ∧
    (((evaluate gts preds tol true).per_item.getD []).getD i
      default).sentiment_basic = 0 ∧
    (((evaluate gts preds tol true).per_item.getD []).getD i
      default).sentiment_tolerance = 0 ∧
    (((evaluate gts preds tol true).per_item.getD []).getD i
      default).sentiment_label = 0 ∧
    (evaluate gts preds tol true).items = gts.length ∧
    ∀ (p : PredRecord) (ps₁ ps₂ : List PredRecord) (det : Bool),
      p.id ∉ gts.map GTRecord.id →
      evaluate gts (ps₁ ++ p :: ps₂) tol det = evaluate gts (ps₁ ++ ps₂) tol det := by
  have hper : (evaluate gts preds tol true).per_item =
      some (gts.map fun gt => (scoreItem gt (lookupPred preds gt.id) tol).1) := by
    simp [evaluate, List.map_map, Function.comp]
  have hentry : ((evaluate gts preds tol true).per_item.getD []).getD i default =
      (scoreItem (gts.get ⟨i, hi⟩) (lookupPred preds (gts.get ⟨i, hi⟩).id) tol).1 := by
    rw [hper, Option.getD_some, List.getD_eq_getElem?_getD, List.getElem?_map,
      List.getElem?_eq_getElem hi]
    rfl
  rw [hnone] at hentry
  refine ⟨by rw [hentry]; rfl, by rw [hentry]; rfl, by rw [hentry]; rfl,
    by rw [hentry]; rfl, by rw [hentry]; rfl, rfl, ?_⟩
  intro p ps₁ ps₂ det hp
  have hlk : ∀ gt ∈ gts, lookupPred (ps₁ ++ p :: ps₂) gt.id =
      lookupPred (ps₁ ++ ps₂) gt.id := by
    intro gt hgt
    have hne : (p.id == gt.id) = false := by
      rw [beq_eq_false_iff_ne]
      exact fun h => hp (h ▸ List.mem_map_of_mem _ hgt)
    unfold lookupPred
    rw [List.reverse_append, List.reverse_append, List.reverse_cons,
      List.find?_append, List.find?_append, List.find?_append]
    have hp1 : ([p].find? fun q => q.id == gt.id) = none := by
      simp [List.find?, hne]
    rw [hp1]
    cases ps₂.reverse.find? fun q => q.id == gt.id <;>
      cases ps₁.reverse.find? fun q => q.id == gt.id <;> rfl
  have hres : (gts.map fun gt =>
        scoreItem gt (lookupPred (ps₁ ++ p :: ps₂) gt.id) tol) =
      gts.map fun gt => scoreItem gt (lookupPred (ps₁ ++ ps₂) gt.id) tol :=
    List.map_congr_left fun gt hgt => by rw [hlk gt hgt]
  simp only [evaluate, hres]

theorem evaluate_missing_prediction_witness :
    (0 : ℕ) < [gtMissingX].length ∧
    lookupPred [] (([gtMissingX].get ⟨0, by norm_num⟩).id) = none ∧
    (((evaluate [gtMissingX] [] (1/10) true).per_item.getD []).getD 0
      default).missing_prediction = true ∧
    (evaluate [gtMissingX] [] (1/10) true).items = 1 := by
  have h := evaluate_missing_prediction [gtMissingX] [] (1/10) 0
    (by norm_num) rfl
  exact ⟨by norm_num, rfl, h.1, h.2.2.2.2.2.1⟩

/-- C3 counterexample: with no matching prediction the `evaluate` loop
`continue`s before the mixed-sentiment check, so a record whose sentence
yields indicators is not counted in `mixed_sentiment_count`. -/
theorem evaluate_mixed_skip_counterexample :
    (evaluate [gtMixedX] [] (1/10) false).mixed_sentiment_count = 0 ∧
    detect_mixed_sentiment_indicators gtMixedX.sentence ≠ [] := by
  exact ⟨rfl, by decide⟩

theorem length_filterMap_eq_length_filter {α β : Type} (h : α → Option β) :
    ∀ l : List α, (l.filterMap h).length =
      (l.filter fun a => (h a).isSome).length := by
  intro l
  induction l with
  | nil => rfl
  | cons a t ih =>
    cases ha : h a <;> simp [List.filterMap_cons, ha, List.filter_cons, ih]

theorem scoreItem_snd_isSome (gt : GTRecord) (predOpt : Option PredRecord)
    (tol : ℚ) :
    ((scoreItem gt predOpt tol).2).isSome =
      (predOpt.isSome
        && !(detect_mixed_sentiment_indicators gt.sentence).isEmpty) := by
  cases predOpt with
  | none => rfl
  | some p =>
    cases hps : p.sentiment_score <;>
      cases hind : (detect_mixed_sentiment_indicators gt.sentence).isEmpty <;>
        simp [scoreItem, hps, hind]

/-- C3 (amended): `MixedSentimentDetector.detect` runs only on ground-truth
records that have a matching prediction; `mixed_sentiment_count` counts
exactly the records with a prediction whose sentence yields indicators,
and the sample holds the first five collected entries. -/
theorem evaluate_mixed_count (gts : List GTRecord) (preds : List PredRecord)
    (tol : ℚ) (det : Bool) :
    (evaluate gts preds tol det).mixed_sentiment_count =
      (gts.filter fun gt => (lookupPred preds gt.id).isSome
        && !(detect_mixed_sentiment_indicators gt.sentence).isEmpty).length ∧
    (evaluate gts preds tol det).mixed_sentiment_analysis =
      ((fun m => if m.isEmpty then none else some (m.length, m.take 5))
        ((gts.map fun gt =>
          scoreItem gt (lookupPred preds gt.id) tol).filterMap Prod.snd)) := by
  constructor
  · show ((gts.map fun gt =>
        scoreItem gt (lookupPred preds gt.id) tol).filterMap Prod.snd).length = _
    rw [List.filterMap_map, length_filterMap_eq_length_filter]
    congr 1
    apply List.filter_congr
    intro gt hgt
    exact scoreItem_snd_isSome gt (lookupPred preds gt.id) tol
  · rfl

end FinanceEval
